import Mathlib

/-!
Verification development for the interactive class-file decoder.

The Go source is embedded shallowly:

* bytes are `Nat`s reduced mod 256 at each read (Go's `[]byte` elements are
  `uint8`);
* the Go `byteParser` (an `io.Reader` plus a sticky `err` field) becomes an
  explicit record `ByteParser` with a position and an error flag.  The Go
  methods have *value* receivers: the underlying `bytes.Reader` is a shared
  pointer, so the position advances for the caller, but an assignment to
  `r.err` inside a read mutates only the method's copy.  The embedding
  reproduces exactly that: every read returns a parser whose `pos` is
  updated and whose `err` field is unchanged;
* Go panics (out-of-range slice indexing, failed interface type assertions,
  `log.Panicf`) are modelled with `Option`, `none` standing for a panic;
* `float32`/`float64` constants are carried as their raw bit patterns; the
  display label produced for them is abstracted by `floatLabel32`/
  `floatLabel64` (only the fact that those labels differ from the other
  labels is ever used).
-/

/-- One byte of the input buffer: the value reduced mod 256 (inputs are
modelled as `List Nat`, read as Go `[]byte`). -/
def byteVal (n : Nat) : Nat := n % 256

/-- Embedding of the Go `byteParser`: remaining data (the slice handed to
`bytes.NewReader`), a read position, and the sticky error flag. -/
structure ByteParser where
  data : List Nat
  pos : Nat
  err : Bool
  deriving Repr

namespace ByteParser

/-- Number of unread bytes. -/
def remaining (p : ByteParser) : Nat := p.data.length - p.pos

/-- The byte `k` places after the read position. -/
def byteAt (p : ByteParser) (k : Nat) : Nat := byteVal (p.data.getD (p.pos + k) 0)

/-- Go `byteParser.u1`.  With `err` set it returns zero without reading;
with fewer than 1 byte remaining, `binary.Read` consumes the rest and
fails, leaving the value zero — and, because the receiver is a value, the
failure is never stored back into the caller's parser. -/
def u1 (p : ByteParser) : Nat × ByteParser :=
  if p.err then (0, p)
  else if 1 ≤ p.remaining then (p.byteAt 0, { p with pos := p.pos + 1 })
  else (0, { p with pos := p.data.length })

/-- Go `byteParser.u2` (big-endian). -/
def u2 (p : ByteParser) : Nat × ByteParser :=
  if p.err then (0, p)
  else if 2 ≤ p.remaining then
    (p.byteAt 0 * 256 + p.byteAt 1, { p with pos := p.pos + 2 })
  else (0, { p with pos := p.data.length })

/-- Go `byteParser.u4` (big-endian). -/
def u4 (p : ByteParser) : Nat × ByteParser :=
  if p.err then (0, p)
  else if 4 ≤ p.remaining then
    (((p.byteAt 0 * 256 + p.byteAt 1) * 256 + p.byteAt 2) * 256 + p.byteAt 3,
      { p with pos := p.pos + 4 })
  else (0, { p with pos := p.data.length })

/-- Go `byteParser.u8` (big-endian). -/
def u8 (p : ByteParser) : Nat × ByteParser :=
  if p.err then (0, p)
  else if 8 ≤ p.remaining then
    (((((((p.byteAt 0 * 256 + p.byteAt 1) * 256 + p.byteAt 2) * 256 + p.byteAt 3) * 256 +
        p.byteAt 4) * 256 + p.byteAt 5) * 256 + p.byteAt 6) * 256 + p.byteAt 7,
      { p with pos := p.pos + 8 })
  else (0, { p with pos := p.data.length })

end ByteParser

/-- Go `newByteParser(byteSlice, start)` builds a reader over
`byteSlice[start:]`.  The slicing itself panics when `start` exceeds the
length; call sites guard for that with `Option`. -/
def newByteParser (bytes : List Nat) (start : Nat) : ByteParser :=
  { data := bytes.drop start, pos := 0, err := false }

/-- Go `newClassDecoder`: read the 4-byte magic number and set the error
flag (directly on the local variable, so this one *does* stick) when it is
not `0xCAFEBABE`. -/
def newClassDecoder (bytes : List Nat) : ByteParser :=
  let cr : ByteParser := { data := bytes, pos := 0, err := false }
  let (magic, cr) := cr.u4
  if magic ≠ 0xCAFEBABE then { cr with err := true } else cr

/-! ## Hex token array (`classJSON` in the web front end) -/

/-- Lower-case hex digit, as produced by Go `hex.EncodeToString` (which
indexes the constant table "0123456789abcdef"). -/
def hexDigitChar (n : Nat) : Char :=
  "0123456789abcdef".toList.getD n '0'

/-- Character stream of Go `hex.EncodeToString(classFile)`: two digits per
byte, high nibble first. -/
def hexEncChars (bs : List Nat) : List Char :=
  bs.flatMap fun b => [hexDigitChar (byteVal b / 16), hexDigitChar (byteVal b % 16)]

/-- The `classJSON` loop `for i := 0; i < len; i += 2` slicing
`hexString[i:i+2]`: split the digit stream into two-character tokens. -/
def chunkPairs : List Char → List String
  | c1 :: c2 :: rest => String.mk [c1, c2] :: chunkPairs rest
  | _ => []

/-- The per-byte hex token array `classString` built by `classJSON`. -/
def classTokens (bs : List Nat) : List String := chunkPairs (hexEncChars bs)

/-- Value of a hex digit, as accepted by Go `hex.DecodeString`. -/
def hexVal (c : Char) : Option Nat :=
  if c = '0' then some 0 else if c = '1' then some 1 else if c = '2' then some 2
  else if c = '3' then some 3 else if c = '4' then some 4 else if c = '5' then some 5
  else if c = '6' then some 6 else if c = '7' then some 7 else if c = '8' then some 8
  else if c = '9' then some 9 else if c = 'a' then some 10 else if c = 'b' then some 11
  else if c = 'c' then some 12 else if c = 'd' then some 13 else if c = 'e' then some 14
  else if c = 'f' then some 15 else if c = 'A' then some 10 else if c = 'B' then some 11
  else if c = 'C' then some 12 else if c = 'D' then some 13 else if c = 'E' then some 14
  else if c = 'F' then some 15 else none

/-- Hex decoding of a character stream (Go `hex.DecodeString`): consume two
digits per output byte; an odd length or a non-digit is an error. -/
def hexDecodeChars : List Char → Option (List Nat)
  | [] => some []
  | c1 :: c2 :: rest => do
    let hi ← hexVal c1
    let lo ← hexVal c2
    let r ← hexDecodeChars rest
    some ((hi * 16 + lo) :: r)
  | [_] => none

/-- Hex decoding of a string. -/
def hexDecode (s : String) : Option (List Nat) := hexDecodeChars s.toList

/-- Concatenation of the hex tokens, as a display layer would join them. -/
def concatTokens (l : List String) : String := l.foldl (fun a b => a ++ b) ""

/-! ## Signature parser (`parseSigniture`) -/

/-- Loop body of Go `parseSigniture`: the `className` flag skips to the
terminating `;` after an `L`; `log.Panicf` on an unrecognized character is
modelled as `none`. -/
def parseSigAux : List Char → Bool → List String → Option (List String)
  | [], _, s => some s
  | c :: rest, true, s =>
    if c = ';' then parseSigAux rest false s else parseSigAux rest true s
  | c :: rest, false, s =>
    if c = '(' ∨ c = ')' ∨ c = '[' then parseSigAux rest false s
    else if c = 'B' then parseSigAux rest false (s ++ ["byte"])
    else if c = 'C' then parseSigAux rest false (s ++ ["char"])
    else if c = 'D' then parseSigAux rest false (s ++ ["double"])
    else if c = 'F' then parseSigAux rest false (s ++ ["float"])
    else if c = 'I' then parseSigAux rest false (s ++ ["int"])
    else if c = 'J' then parseSigAux rest false (s ++ ["long"])
    else if c = 'S' then parseSigAux rest false (s ++ ["short"])
    else if c = 'Z' then parseSigAux rest false (s ++ ["boolean"])
    else if c = 'V' then parseSigAux rest false (s ++ ["void"])
    else if c = 'L' then parseSigAux rest true (s ++ ["reference"])
    else none

/-- Go `parseSigniture` (the source's spelling).  Iterates the runes of the
descriptor; `none` models the `log.Panicf` on an unrecognized character. -/
def parseSigniture (sig : String) : Option (List String) :=
  parseSigAux sig.toList false []

/-! ## Constant pool items and the class model -/

/-- The `ConstantPoolItem` variants of the source.  `containingClass`
back-pointers are dropped; accessors that used them take the owning pool as
an explicit argument.  Float/double constants carry their bit patterns. -/
inductive CPItem where
  | utf8String (contents : String)
  | classInfo (nameIndex : Nat)
  | methodRef (classIndex nameAndTypeIndex : Nat)
  | interfaceMethodRef (classIndex nameAndTypeIndex : Nat)
  | fieldRef (classIndex nameAndTypeIndex : Nat)
  | nameAndType (nameIndex descriptorIndex : Nat)
  | stringConstant (utf8Index : Nat)
  | intConstant (value : Int)
  | longConstant (value : Int)
  | floatConstant (bits : Nat)
  | doubleConstant (bits : Nat)
  | methodType (descriptorIndex : Nat)
  | methodHandle (referenceKind referenceIndex : Nat)
  | invokeDynamic (bootstrapMethodAttrIndex nameAndTypeIndex : Nat)
  | wideConstantPart2
  deriving Repr, DecidableEq

/-- Go `c.ConstantPoolItems[idx-1]` where `idx` is a `uint16`: the
subtraction wraps mod 2^16 and an out-of-range index panics (`none`). -/
def cpGet (pool : List CPItem) (idx : Nat) : Option CPItem :=
  pool.get? ((idx + 65535) % 65536)

/-- Go `field`: access flags, name index, descriptor index (the unused
`value interface\x7b\x7d` field is dropped). -/
structure GoField where
  accessFlags : Nat
  nameIndex : Nat
  descriptorIndex : Nat
  deriving Repr, DecidableEq

/-- Go `ExceptionHandler`. -/
structure GoExceptionHandler where
  Start : Nat
  End : Nat
  Handler : Nat
  CatchType : Nat
  Class : String
  deriving Repr, DecidableEq

/-- Go `Code`. -/
structure GoCode where
  maxStack : Nat
  maxLocals : Nat
  Instructions : List Nat
  ExceptionHandlers : List GoExceptionHandler
  deriving Repr, DecidableEq

/-- Go `Method` (the `class` back-pointer is dropped; accessors take the
pool explicitly). -/
structure GoMethod where
  Signiture : List String
  RawSigniture : String
  accessFlags : Nat
  nameIndex : Nat
  descriptorIndex : Nat
  Code : GoCode
  deriving Repr, DecidableEq

/-- Go `Class` (the unused `magic` and `initialised` fields are dropped). -/
structure GoClass where
  MinorVersion : Nat
  MajorVersion : Nat
  ConstantPoolItems : List CPItem
  AccessFlags : Nat
  thisClass : Nat
  superClass : Nat
  interfaces : List Nat
  fields : List GoField
  methods : List GoMethod
  deriving Repr, DecidableEq

/-- Go `(*Class).Name`: `ConstantPoolItems[thisClass-1].(classInfo)` then
`ConstantPoolItems[info.nameIndex-1].(utf8String)`; either failed type
assertion or out-of-range index panics (`none`). -/
def GoClass.Name (c : GoClass) : Option String :=
  match cpGet c.ConstantPoolItems c.thisClass with
  | some (CPItem.classInfo nameIndex) =>
    match cpGet c.ConstantPoolItems nameIndex with
    | some (CPItem.utf8String s) => some s
    | _ => none
  | _ => none

/-- Go `(*Class).getSuperName`. -/
def GoClass.getSuperName (c : GoClass) : Option String :=
  match cpGet c.ConstantPoolItems c.superClass with
  | some (CPItem.classInfo nameIndex) =>
    match cpGet c.ConstantPoolItems nameIndex with
    | some (CPItem.utf8String s) => some s
    | _ => none
  | _ => none

/-- Go `(*Class).getConstantPoolItemAt` (panics only on a bad index). -/
def GoClass.getConstantPoolItemAt (c : GoClass) (index : Nat) : Option CPItem :=
  cpGet c.ConstantPoolItems index

/-- Go `(*Class).getMethodRefAt`: unchecked `.(methodRef)` assertion. -/
def GoClass.getMethodRefAt (c : GoClass) (index : Nat) : Option (Nat × Nat) :=
  match cpGet c.ConstantPoolItems index with
  | some (CPItem.methodRef ci nti) => some (ci, nti)
  | _ => none

/-- Go `methodRef.methodName()`: follow `nameAndTypeIndex` to a
`nameAndType`, then its `nameIndex` to a `utf8String`; a hop landing on the
wrong kind is an unchecked type assertion, i.e. a panic (`none`).  The
`containingClass` pointer is passed as the explicit `pool`. -/
def methodRefMethodName (pool : List CPItem) (nameAndTypeIndex : Nat) : Option String :=
  match cpGet pool nameAndTypeIndex with
  | some (CPItem.nameAndType nameIndex _) =>
    match cpGet pool nameIndex with
    | some (CPItem.utf8String s) => some s
    | _ => none
  | _ => none

/-- Go `methodRef.className()`. -/
def methodRefClassName (pool : List CPItem) (classIndex : Nat) : Option String :=
  match cpGet pool classIndex with
  | some (CPItem.classInfo nameIndex) =>
    match cpGet pool nameIndex with
    | some (CPItem.utf8String s) => some s
    | _ => none
  | _ => none

/-- Go `(*Class).hasMethodCalled`: each iteration resolves the method's
name through the pool with an unchecked assertion (`none` on panic). -/
def hasMethodCalledAux (pool : List CPItem) (name : String) : List GoMethod → Option Bool
  | [] => some false
  | m :: rest =>
    match cpGet pool m.nameIndex with
    | some (CPItem.utf8String n) =>
      if n = name then some true else hasMethodCalledAux pool name rest
    | _ => none

/-- Go `(*Class).hasMethodCalled`. -/
def GoClass.hasMethodCalled (c : GoClass) (name : String) : Option Bool :=
  hasMethodCalledAux c.ConstantPoolItems name c.methods

/-- Go `(*Class).resolveMethod` loop: resolves each method's name and
descriptor, appends `"{Name}::{n}{d}"` to the diagnostic list (evaluating
`c.Name()`, itself a possible panic), and compares. -/
def resolveMethodAux (c : GoClass) (name descriptor : String) :
    List GoMethod → List String → Option (Option GoMethod × List String)
  | [], acc => some (none, acc)
  | m :: rest, acc => do
    let n ← match cpGet c.ConstantPoolItems m.nameIndex with
      | some (CPItem.utf8String n) => some n
      | _ => none
    let d ← match cpGet c.ConstantPoolItems m.descriptorIndex with
      | some (CPItem.utf8String d) => some d
      | _ => none
    let cn ← c.Name
    let acc := acc ++ [cn ++ "::" ++ n ++ d]
    if n = name ∧ d = descriptor then some (some m, acc)
    else resolveMethodAux c name descriptor rest acc

/-- Go `(*Class).resolveMethod`. -/
def GoClass.resolveMethod (c : GoClass) (name descriptor : String) :
    Option (Option GoMethod × List String) :=
  resolveMethodAux c name descriptor c.methods []

/-- Go `(*Class).getField`: resolves each field's name through the pool
(unchecked assertion) and, when no field matches, panics with "Could not
find field"; both panics are `none`. -/
def getFieldAux (pool : List CPItem) (name : String) : List GoField → Option GoField
  | [] => none
  | f :: rest =>
    match cpGet pool f.nameIndex with
    | some (CPItem.utf8String n) =>
      if n = name then some f else getFieldAux pool name rest
    | _ => none

/-- Go `(*Class).getField`. -/
def GoClass.getField (c : GoClass) (name : String) : Option GoField :=
  getFieldAux c.ConstantPoolItems name c.fields

/-! ## The model-pass decoder (`ParseClass`) -/

/-- Byte-discarding loop `for k := ...; k < length; k++ \x7b _ = cr.u1() \x7d`. -/
def skipLoop : Nat → ByteParser → ByteParser
  | 0, p => p
  | n + 1, p => skipLoop n (p.u1).2

/-- Read `n` bytes one `u1` at a time (the loops filling `[]byte` buffers). -/
def readN : Nat → ByteParser → List Nat × ByteParser
  | 0, p => ([], p)
  | n + 1, p =>
    let (b, p) := p.u1
    let (rest, p) := readN n p
    (b :: rest, p)

/-- The interface-index loop of `ParseClass`. -/
def readInterfaces : Nat → ByteParser → List Nat × ByteParser
  | 0, p => ([], p)
  | n + 1, p =>
    let (v, p) := p.u2
    let (rest, p) := readInterfaces n p
    (v :: rest, p)

/-- The attribute-skipping loop shared by fields, methods and the class
trailer: per attribute a `u2` name index, a `u4` length, then that many
discarded bytes. -/
def skipAttrs : Nat → ByteParser → ByteParser
  | 0, p => p
  | n + 1, p =>
    let (_, p) := p.u2
    let (length, p) := p.u4
    skipAttrs n (skipLoop length p)

/-- The field-records loop of `ParseClass` (attribute bodies discarded). -/
def parseFields : Nat → ByteParser → List GoField × ByteParser
  | 0, p => ([], p)
  | n + 1, p =>
    let (aflags, p) := p.u2
    let (nameIndex, p) := p.u2
    let (descriptorIndex, p) := p.u2
    let (attrCount, p) := p.u2
    let p := skipAttrs attrCount p
    let (rest, p) := parseFields n p
    ({ accessFlags := aflags, nameIndex := nameIndex, descriptorIndex := descriptorIndex } :: rest, p)

/-- The exception-handler loop of Go `parseCode`.  A nonzero catch type
resolves `classInfo → utf8String` through the pool with unchecked
assertions (`none` on panic). -/
def readHandlers (pool : List CPItem) : Nat → ByteParser → Option (List GoExceptionHandler × ByteParser)
  | 0, p => some ([], p)
  | n + 1, p => do
    let (s, p) := p.u2
    let (e, p) := p.u2
    let (h, p) := p.u2
    let (catchType, p) := p.u2
    let handler ←
      if catchType ≠ 0 then
        match cpGet pool catchType with
        | some (CPItem.classInfo nameIndex) =>
          match cpGet pool nameIndex with
          | some (CPItem.utf8String nm) =>
            some { Start := s, End := e, Handler := h, CatchType := catchType, Class := nm }
          | _ => none
        | _ => none
      else
        some { Start := s, End := e, Handler := h, CatchType := 0, Class := "" }
    let (rest, p) ← readHandlers pool n p
    some (handler :: rest, p)

/-- Go `parseCode`: stack/local sizes, raw instruction bytes, exception
table, then discard up to the declared attribute length.  The Go padding
bound `8 + codeLength + 2 + numExceptionHandlers*8` is `uint32`
arithmetic, taken mod 2^32. -/
def parseCode (pool : List CPItem) (cr : ByteParser) (length : Nat) :
    Option (GoCode × ByteParser) := do
  let (maxStack, p) := cr.u2
  let (maxLocals, p) := p.u2
  let (codeLength, p) := p.u4
  let (instructions, p) := readN codeLength p
  let (numExceptionHandlers, p) := p.u2
  let (handlers, p) ← readHandlers pool numExceptionHandlers p
  let consumed := (8 + codeLength + 2 + numExceptionHandlers * 8) % 4294967296
  let p := skipLoop (length - consumed) p
  some ({ maxStack := maxStack, maxLocals := maxLocals, Instructions := instructions,
          ExceptionHandlers := handlers }, p)

/-- The per-method attribute loop of `ParseClass`: resolve each attribute
name through the pool (unchecked `utf8String` assertion on an empty pool —
a panic); a name equal to "Code" triggers `parseCode`, anything else is
skipped by declared length. -/
def methodAttrs (pool : List CPItem) : Nat → ByteParser → GoCode → Option (GoCode × ByteParser)
  | 0, p, code => some (code, p)
  | n + 1, p, code => do
    let (name, p) := p.u2
    let (length, p) := p.u4
    match cpGet pool name with
    | some (CPItem.utf8String actualName) =>
      if actualName = "Code" then do
        let (code, p) ← parseCode pool p length
        methodAttrs pool n p code
      else
        methodAttrs pool n (skipLoop length p) code
    | _ => none

/-- The method-records loop of `ParseClass`.  Each iteration resolves the
descriptor string via `ConstantPoolItems[descriptorIndex-1].(utf8String)`
— on the never-populated pool this indexes an empty slice and panics —
then parses the signature and walks the attributes. -/
def parseMethods (pool : List CPItem) : Nat → ByteParser → Option (List GoMethod × ByteParser)
  | 0, p => some ([], p)
  | n + 1, p => do
    let (aflags, p) := p.u2
    let (nameIndex, p) := p.u2
    let (descriptorIndex, p) := p.u2
    let sig ← match cpGet pool descriptorIndex with
      | some (CPItem.utf8String sig) => some sig
      | _ => none
    let signiture ← parseSigniture sig
    let (attrCount, p) := p.u2
    let (code, p) ← methodAttrs pool attrCount p
      { maxStack := 0, maxLocals := 0, Instructions := [], ExceptionHandlers := [] }
    let (rest, p) ← parseMethods pool n p
    some ({ Signiture := signiture, RawSigniture := sig, accessFlags := aflags,
            nameIndex := nameIndex, descriptorIndex := descriptorIndex, Code := code } :: rest, p)

/-- Go `ParseClass`: the model pass.  The constant-pool population is
commented out in the source (`c.ConstantPoolItems = parseConstantPool(...)`
never runs), so `pool` stays empty.  The result pairs the class with the
final `cr.err` flag (`true` = a non-nil Go error); `none` models a panic
escaping the function. -/
def ParseClass (bytes : List Nat) : Option (GoClass × Bool) := do
  let cr := newClassDecoder bytes
  let (minorVersion, cr) := cr.u2
  let (majorVersion, cr) := cr.u2
  let (_cpc, cr) := cr.u2
  let pool : List CPItem := []
  let (aflags, cr) := cr.u2
  let (thisClass, cr) := cr.u2
  let (superClass, cr) := cr.u2
  let (interfacesCount, cr) := cr.u2
  let (interfaces, cr) := readInterfaces interfacesCount cr
  let (fieldsCount, cr) := cr.u2
  let (fields, cr) := parseFields fieldsCount cr
  let (methodsCount, cr) := cr.u2
  let (methods, cr) ← parseMethods pool methodsCount cr
  let (attrCount, cr) := cr.u2
  let cr := skipAttrs attrCount cr
  some ({ MinorVersion := minorVersion, MajorVersion := majorVersion,
          ConstantPoolItems := pool, AccessFlags := aflags, thisClass := thisClass,
          superClass := superClass, interfaces := interfaces, fields := fields,
          methods := methods }, cr.err)

/-! ## The provenance pass (`parseClass` and the `Section` tree)

Each provenance parser has the Go shape
`func(bytes []byte, index int) (next int, section *Section)`; the global
`nextId` counter is threaded explicitly as `g`, and the result is wrapped
in `Option` because `newByteParser`'s slice expression `bytes[index:]`
panics when `index` exceeds the buffer length. -/

/-- Go `Section`, with the source's field order. -/
structure Section where
  StartIndex : Nat
  EndIndex : Nat
  Name : String
  Children : List Section
  Id : Nat
  deriving Repr

instance : Inhabited Section := ⟨⟨0, 0, "", [], 0⟩⟩

/-- Go `string(bytes)` as used for the UTF-8 item label.  ASCII bytes are
rendered exactly; multi-byte UTF-8 sequences are not decoded (no claim
depends on this text). -/
def goString (bs : List Nat) : String := String.mk (bs.map fun b => Char.ofNat b)

/-- Abstracts `fmt.Sprintf("%v", math.Float32frombits(bits))`: the decimal
rendering of the float is not modelled, only the bit pattern is kept (no
claim depends on this text). -/
def floatLabel32 (bits : Nat) : String := "float32bits " ++ toString bits

/-- Abstracts `fmt.Sprintf("%v", math.Float64frombits(bits))`. -/
def floatLabel64 (bits : Nat) : String := "float64bits " ++ toString bits

/-- Go `fmt.Sprintf("%d", x)` for an `int32` built from a `u4` value. -/
def int32str (v : Nat) : String :=
  toString (if v < 2147483648 then (v : Int) else (v : Int) - 4294967296)

/-- Go `fmt.Sprintf("%v", b)` for a bool. -/
def boolStr (b : Bool) : String := if b then "true" else "false"

/-- Go `parseMagicNumber`: emits a section (and consumes an id) only when
the buffer holds at least 4 bytes and they equal `0xCAFEBABE`; otherwise
`next` stays at `index` and no section is produced. -/
def parseMagicNumber (bytes : List Nat) (index g : Nat) :
    Option (Nat × Option Section × Nat) :=
  if 4 ≤ bytes.length then
    if index ≤ bytes.length then
      let (magic, _) := (newByteParser bytes index).u4
      if magic = 0xCAFEBABE then
        some (index + 4, some ⟨index, index + 4, "magic number", [], g⟩, g + 1)
      else some (index, none, g)
    else none
  else some (index, none, g)

/-- Go `parseVersion`.  The `parser.err == nil` guard is kept as written,
but it can never fail: the reads assign `err` only to the method's copy of
the parser (value receiver), so a truncated buffer still yields a version
section with zero values. -/
def parseVersion (bytes : List Nat) (index g : Nat) :
    Option (Nat × Option Section × Nat) :=
  if 4 ≤ bytes.length then
    if index ≤ bytes.length then
      let p := newByteParser bytes index
      let (minorVersion, p) := p.u2
      let (majorVersion, p) := p.u2
      if p.err = false then
        let minorSec : Section :=
          ⟨index, index + 2, "minor version: " ++ toString minorVersion, [], g⟩
        let majorSec : Section :=
          ⟨index + 2, index + 4, "major version: " ++ toString majorVersion, [], g + 1⟩
        some (index + 4,
          some ⟨index, index + 4,
            "version " ++ toString majorVersion ++ "." ++ toString minorVersion,
            [minorSec, majorSec], g + 2⟩, g + 3)
      else some (index, none, g)
    else none
  else some (index, none, g)

/-- The constant-pool entry loop of Go `parseConstantPool`, recursing on
`remaining = bound - i` (the loop runs while `i < bound`; the long/double
cases do an extra `i++`, consuming two steps).  `item.Id` and `tagSec.Id`
are drawn from the counter before the tag is dispatched, so the `default`
(break) case consumes two ids without emitting a section. -/
def cpItemsLoop : Nat → Nat → ByteParser → Nat → Nat → List Section × Nat × Nat
  | 0, _, _, next, g => ([], next, g)
  | rem + 1, i, p, next, g =>
    let itemId := g
    let tagId := g + 1
    let itemStart := next
    let (tag, p) := p.u1
    let tagSec : Section := ⟨next, next + 1, "tag: " ++ toString tag, [], tagId⟩
    let next := next + 1
    match tag with
    | 1 =>
      let (length, p) := p.u2
      let (strBytes, p) := readN length p
      let lenSec : Section := ⟨next, next + 2, "length: " ++ toString length, [], g + 2⟩
      let strSec : Section :=
        ⟨next + 2, next + 2 + length, "string: \"" ++ goString strBytes ++ "\"", [], g + 3⟩
      let item : Section := ⟨itemStart, next + 2 + length,
        "[" ++ toString (i + 1) ++ "] UTF-8 string", [tagSec, lenSec, strSec], itemId⟩
      let (rest, next', g') := cpItemsLoop rem (i + 1) p (next + 2 + length) (g + 4)
      (item :: rest, next', g')
    | 3 =>
      let (x, p) := p.u4
      let valSec : Section := ⟨next, next + 4, int32str x, [], g + 2⟩
      let item : Section := ⟨itemStart, next + 4,
        "[" ++ toString (i + 1) ++ "] int", [tagSec, valSec], itemId⟩
      let (rest, next', g') := cpItemsLoop rem (i + 1) p (next + 4) (g + 3)
      (item :: rest, next', g')
    | 4 =>
      let (bits, p) := p.u4
      let valSec : Section := ⟨next, next + 4, floatLabel32 bits, [], g + 2⟩
      let item : Section := ⟨itemStart, next + 4,
        "[" ++ toString (i + 1) ++ "] float", [tagSec, valSec], itemId⟩
      let (rest, next', g') := cpItemsLoop rem (i + 1) p (next + 4) (g + 3)
      (item :: rest, next', g')
    | 5 =>
      let (x, p) := p.u8
      let valSec : Section := ⟨next, next + 8, toString x, [], g + 2⟩
      let item : Section := ⟨itemStart, next + 8,
        "[" ++ toString (i + 1) ++ "] long", [tagSec, valSec], itemId⟩
      let (rest, next', g') :=
        match rem with
        | 0 => ([], next + 8, g + 3)
        | r + 1 => cpItemsLoop r (i + 2) p (next + 8) (g + 3)
      (item :: rest, next', g')
    | 6 =>
      let (bits, p) := p.u8
      let valSec : Section := ⟨next, next + 8, floatLabel64 bits, [], g + 2⟩
      let item : Section := ⟨itemStart, next + 8,
        "[" ++ toString (i + 1) ++ "] double", [tagSec, valSec], itemId⟩
      let (rest, next', g') :=
        match rem with
        | 0 => ([], next + 8, g + 3)
        | r + 1 => cpItemsLoop r (i + 2) p (next + 8) (g + 3)
      (item :: rest, next', g')
    | 7 =>
      let (x, p) := p.u2
      let valSec : Section := ⟨next, next + 2, "name index: " ++ toString x, [], g + 2⟩
      let item : Section := ⟨itemStart, next + 2,
        "[" ++ toString (i + 1) ++ "] class info", [tagSec, valSec], itemId⟩
      let (rest, next', g') := cpItemsLoop rem (i + 1) p (next + 2) (g + 3)
      (item :: rest, next', g')
    | 8 =>
      let (utf8Index, p) := p.u2
      let valSec : Section :=
        ⟨next, next + 2, "UTF-8 constant index: " ++ toString utf8Index, [], g + 2⟩
      let item : Section := ⟨itemStart, next + 2,
        "[" ++ toString (i + 1) ++ "] string constant", [tagSec, valSec], itemId⟩
      let (rest, next', g') := cpItemsLoop rem (i + 1) p (next + 2) (g + 3)
      (item :: rest, next', g')
    | 9 =>
      let (classIndex, p) := p.u2
      let cSec : Section :=
        ⟨next, next + 2, "class info index: " ++ toString classIndex, [], g + 2⟩
      let (nameAndTypeIndex, p) := p.u2
      let ntSec : Section :=
        ⟨next + 2, next + 4, "name and type index: " ++ toString nameAndTypeIndex, [], g + 3⟩
      let item : Section := ⟨itemStart, next + 4,
        "[" ++ toString (i + 1) ++ "] field ref", [tagSec, cSec, ntSec], itemId⟩
      let (rest, next', g') := cpItemsLoop rem (i + 1) p (next + 4) (g + 4)
      (item :: rest, next', g')
    | 10 =>
      let (classIndex, p) := p.u2
      let cSec : Section :=
        ⟨next, next + 2, "class info index: " ++ toString classIndex, [], g + 2⟩
      let (nameAndTypeIndex, p) := p.u2
      let ntSec : Section :=
        ⟨next + 2, next + 4, "name and type index: " ++ toString nameAndTypeIndex, [], g + 3⟩
      let item : Section := ⟨itemStart, next + 4,
        "[" ++ toString (i + 1) ++ "] method ref", [tagSec, cSec, ntSec], itemId⟩
      let (rest, next', g') := cpItemsLoop rem (i + 1) p (next + 4) (g + 4)
      (item :: rest, next', g')
    | 11 =>
      let (classIndex, p) := p.u2
      let cSec : Section :=
        ⟨next, next + 2, "class info index: " ++ toString classIndex, [], g + 2⟩
      let (nameAndTypeIndex, p) := p.u2
      let ntSec : Section :=
        ⟨next + 2, next + 4, "name and type index: " ++ toString nameAndTypeIndex, [], g + 3⟩
      let item : Section := ⟨itemStart, next + 4,
        "[" ++ toString (i + 1) ++ "] interface method ref", [tagSec, cSec, ntSec], itemId⟩
      let (rest, next', g') := cpItemsLoop rem (i + 1) p (next + 4) (g + 4)
      (item :: rest, next', g')
    | 12 =>
      let (nameIndex, p) := p.u2
      let nSec : Section :=
        ⟨next, next + 2, "name index: " ++ toString nameIndex, [], g + 2⟩
      let (descriptorIndex, p) := p.u2
      let dSec : Section :=
        ⟨next + 2, next + 4, "descriptor index: " ++ toString descriptorIndex, [], g + 3⟩
      let item : Section := ⟨itemStart, next + 4,
        "[" ++ toString (i + 1) ++ "] name and type", [tagSec, nSec, dSec], itemId⟩
      let (rest, next', g') := cpItemsLoop rem (i + 1) p (next + 4) (g + 4)
      (item :: rest, next', g')
    | 15 =>
      let (referenceKind, p) := p.u1
      let kSec : Section :=
        ⟨next, next + 1, "reference kind: " ++ toString referenceKind, [], g + 2⟩
      let (referenceIndex, p) := p.u2
      let rSec : Section :=
        ⟨next + 1, next + 3, "reference index: " ++ toString referenceIndex, [], g + 3⟩
      let item : Section := ⟨itemStart, next + 3,
        "[" ++ toString (i + 1) ++ "] method handle", [tagSec, kSec, rSec], itemId⟩
      let (rest, next', g') := cpItemsLoop rem (i + 1) p (next + 3) (g + 4)
      (item :: rest, next', g')
    | 16 =>
      let (descriptorIndex, p) := p.u2
      let dSec : Section :=
        ⟨next, next + 2, "descriptor index: " ++ toString descriptorIndex, [], g + 2⟩
      let item : Section := ⟨itemStart, next + 2,
        "[" ++ toString (i + 1) ++ "] method type", [tagSec, dSec], itemId⟩
      let (rest, next', g') := cpItemsLoop rem (i + 1) p (next + 2) (g + 3)
      (item :: rest, next', g')
    | 18 =>
      let (bootstrapMethodIndex, p) := p.u2
      let bSec : Section :=
        ⟨next, next + 2, "bootstrap method attribute index: " ++ toString bootstrapMethodIndex,
          [], g + 2⟩
      let (nameAndTypeIndex, p) := p.u2
      let ntSec : Section :=
        ⟨next + 2, next + 4, "name and type index: " ++ toString nameAndTypeIndex, [], g + 3⟩
      let item : Section := ⟨itemStart, next + 4,
        "[" ++ toString (i + 1) ++ "] invoke dynamic", [tagSec, bSec, ntSec], itemId⟩
      let (rest, next', g') := cpItemsLoop rem (i + 1) p (next + 4) (g + 4)
      (item :: rest, next', g')
    | _ => ([], next, g + 2)

/-- Go `parseConstantPool` (provenance pass).  `int(constantPoolCount-1)`
is `uint16` subtraction, so a count of 0 makes the bound 65535. -/
def parseConstantPool (bytes : List Nat) (index g : Nat) :
    Option (Nat × Option Section × Nat) :=
  if index ≤ bytes.length then
    let p := newByteParser bytes index
    let (constantPoolCount, p) := p.u2
    let next := index + 2
    let countSec : Section :=
      ⟨index, next, "constant pool count: " ++ toString constantPoolCount, [], g⟩
    let bound := (constantPoolCount + 65535) % 65536
    let (items, next', g') := cpItemsLoop bound 0 p next (g + 1)
    let children := countSec :: items
    some (next', some ⟨index, next',
      "constant pool with " ++ toString (children.length - 1) ++ " items", children, g'⟩,
      g' + 1)
  else none

/-- Go `parseAccessFlags`: ten single-flag children.  The low-byte flags
(public/static/final/super) span `[index+1, index+2)` and the high-byte
flags span `[index, index+1)` — the children share bytes and are not in
start order. -/
def parseAccessFlags (bytes : List Nat) (index g : Nat) :
    Option (Nat × Option Section × Nat) :=
  if index ≤ bytes.length then
    let p := newByteParser bytes index
    let (flags, _) := p.u2
    let publicSec : Section :=
      ⟨index + 1, index + 2, "0x0001 public: " ++ boolStr ((flags &&& 0x0001) != 0), [], g⟩
    let staticSec : Section :=
      ⟨index + 1, index + 2, "0x0008 static: " ++ boolStr ((flags &&& 0x0008) != 0), [], g + 1⟩
    let finalSec : Section :=
      ⟨index + 1, index + 2, "0x0010 final: " ++ boolStr ((flags &&& 0x0010) != 0), [], g + 2⟩
    let superSec : Section :=
      ⟨index + 1, index + 2, "0x0020 super: " ++ boolStr ((flags &&& 0x0020) != 0), [], g + 3⟩
    let nativeSec : Section :=
      ⟨index, index + 1, "0x0100 native: " ++ boolStr ((flags &&& 0x0100) != 0), [], g + 4⟩
    let interfaceSec : Section :=
      ⟨index, index + 1, "0x0200 interface: " ++ boolStr ((flags &&& 0x0200) != 0), [], g + 5⟩
    let abstractSec : Section :=
      ⟨index, index + 1, "0x0400 abstract: " ++ boolStr ((flags &&& 0x0400) != 0), [], g + 6⟩
    let syntheticSec : Section :=
      ⟨index, index + 1, "0x1000 synthetic: " ++ boolStr ((flags &&& 0x1000) != 0), [], g + 7⟩
    let annotationSec : Section :=
      ⟨index, index + 1, "0x2000 annotation: " ++ boolStr ((flags &&& 0x2000) != 0), [], g + 8⟩
    let enumSec : Section :=
      ⟨index, index + 1, "0x4000 enum: " ++ boolStr ((flags &&& 0x4000) != 0), [], g + 9⟩
    some (index + 2, some ⟨index, index + 2, "access flags",
      [publicSec, staticSec, finalSec, superSec, nativeSec, interfaceSec, abstractSec,
        syntheticSec, annotationSec, enumSec], g + 10⟩, g + 11)
  else none

/-- Go `parseThisClass`. -/
def parseThisClass (bytes : List Nat) (index g : Nat) :
    Option (Nat × Option Section × Nat) :=
  if index ≤ bytes.length then
    let p := newByteParser bytes index
    let (this, _) := p.u2
    some (index + 2, some ⟨index, index + 2,
      "constant pool index for this class: " ++ toString this, [], g⟩, g + 1)
  else none

/-- Go `parseSuperClass`. -/
def parseSuperClass (bytes : List Nat) (index g : Nat) :
    Option (Nat × Option Section × Nat) :=
  if index ≤ bytes.length then
    let p := newByteParser bytes index
    let (super, _) := p.u2
    some (index + 2, some ⟨index, index + 2,
      "constant pool index for super class: " ++ toString super, [], g⟩, g + 1)
  else none

/-- The interface loop of Go `parseInterfaces`.  The child label's format
string has no verb, so `fmt.Sprintf` renders the extra operand as
`%!(EXTRA uint16=...)`. -/
def interfacesLoop : Nat → ByteParser → Nat → Nat → List Section × Nat × Nat
  | 0, _, next, g => ([], next, g)
  | n + 1, p, next, g =>
    let (v, p) := p.u2
    let child : Section := ⟨next, next + 2,
      "constant pool index for interface: %!(EXTRA uint16=" ++ toString v ++ ")", [], g⟩
    let (rest, next', g') := interfacesLoop n p (next + 2) (g + 1)
    (child :: rest, next', g')

/-- Go `parseInterfaces`. -/
def parseInterfaces (bytes : List Nat) (index g : Nat) :
    Option (Nat × Option Section × Nat) :=
  if index ≤ bytes.length then
    let p := newByteParser bytes index
    let (interfacesCount, p) := p.u2
    let (children, next', g') := interfacesLoop interfacesCount p (index + 2) g
    some (next', some ⟨index, next',
      "class implements " ++ toString interfacesCount ++ " interfaces", children, g'⟩,
      g' + 1)
  else none

/-- Go `parseClass` (provenance pass): reset the id counter to 0, run the
seven parsers in order threading `index`, and keep the non-nil sections.
`none` models a panic escaping one of the parsers. -/
def parseClass (bytes : List Nat) : Option (List Section) := do
  let (i1, s1, g1) ← parseMagicNumber bytes 0 0
  let (i2, s2, g2) ← parseVersion bytes i1 g1
  let (i3, s3, g3) ← parseConstantPool bytes i2 g2
  let (i4, s4, g4) ← parseAccessFlags bytes i3 g3
  let (i5, s5, g5) ← parseThisClass bytes i4 g4
  let (i6, s6, g6) ← parseSuperClass bytes i5 g5
  let (_, s7, _) ← parseInterfaces bytes i6 g6
  some (([s1, s2, s3, s4, s5, s6, s7].filterMap id))

/-! ## Section-tree properties

The recursive tree properties are expressed with a fuel parameter (`Section`
is a nested inductive; fuel keeps every checker a structural recursion that
the kernel can evaluate).  Zero fuel accepts everything, so a property
quantified over all fuels covers the whole tree. -/

/-- All children lie inside the byte range `[st, en)`. -/
def containB (st en : Nat) (cs : List Section) : Bool :=
  cs.all fun c => decide (st ≤ c.StartIndex) && decide (c.EndIndex ≤ en)

/-- Two half-open byte ranges do not overlap. -/
def disjointRanges (a b : Section) : Bool :=
  decide (a.EndIndex ≤ b.StartIndex) || decide (b.EndIndex ≤ a.StartIndex)

/-- Sibling ranges are pairwise non-overlapping. -/
def pairwiseDisjointB : List Section → Bool
  | [] => true
  | s :: rest => rest.all (disjointRanges s) && pairwiseDisjointB rest

/-- Siblings are ordered by start offset. -/
def sortedByStartB : List Section → Bool
  | [] => true
  | [_] => true
  | a :: b :: rest => decide (a.StartIndex ≤ b.StartIndex) && sortedByStartB (b :: rest)

/-- Children occupy consecutive ranges: each child starts no earlier than
`lo` (resp. the previous child's end) and has a well-ordered range. -/
def chainB : Nat → List Section → Bool
  | _, [] => true
  | lo, c :: rest =>
    decide (lo ≤ c.StartIndex) && decide (c.StartIndex ≤ c.EndIndex) && chainB c.EndIndex rest

/-- The claim's per-section property, checked through the tree: children
contained in the parent's range, pairwise non-overlapping, ordered by
start. -/
def claimC4F : Nat → Section → Bool
  | 0, _ => true
  | fuel + 1, s =>
    containB s.StartIndex s.EndIndex s.Children &&
    pairwiseDisjointB s.Children && sortedByStartB s.Children &&
    s.Children.all (claimC4F fuel)

/-- The amended per-section property: containment always; non-overlap and
start order for every section except the access-flags section, whose ten
flag children share bytes by design. -/
def goodSectionF : Nat → Section → Bool
  | 0, _ => true
  | fuel + 1, s =>
    containB s.StartIndex s.EndIndex s.Children &&
    (s.Name == "access flags" || (pairwiseDisjointB s.Children && sortedByStartB s.Children)) &&
    s.Children.all (goodSectionF fuel)

/-- Ids of a section tree in depth-first (pre-order) visitation order. -/
def idsOfF : Nat → Section → List Nat
  | 0, _ => []
  | fuel + 1, s => s.Id :: s.Children.flatMap (idsOfF fuel)

/-- Ids of a section forest in depth-first visitation order. -/
def idsFlatF (fuel : Nat) (l : List Section) : List Nat := l.flatMap (idsOfF fuel)

/-- A list of naturals is strictly increasing. -/
def strictIncB : List Nat → Bool
  | [] => true
  | [_] => true
  | a :: b :: rest => decide (a < b) && strictIncB (b :: rest)

/-! ## Shared concrete inputs -/

/-- A buffer holding only the 4-byte magic number. -/
def magicOnly : List Nat := [0xCA, 0xFE, 0xBA, 0xBE]

/-- Sixteen zero bytes: the first four are not the magic number. -/
def zeros16 : List Nat := List.replicate 16 0

/-- A well-formed 16-byte prefix: magic, version 52.0, an empty constant
pool (count 1), access flags 0x0021, this-class 2, super-class 3; the
interface count is read past the end (harmlessly, as zero). -/
def good16 : List Nat := [0xCA, 0xFE, 0xBA, 0xBE, 0, 0, 0, 52, 0, 1, 0, 0x21, 0, 2, 0, 3]

/-- The section forest decoded from `good16`. -/
def good16forest : List Section := (parseClass good16).getD []

/-- The all-zero class produced by the model pass whenever its reads yield
nothing. -/
def goClassZero : GoClass :=
  { MinorVersion := 0, MajorVersion := 0, ConstantPoolItems := [], AccessFlags := 0,
    thisClass := 0, superClass := 0, interfaces := [], fields := [], methods := [] }

/-- A raw constant pool buffer: count 3, then a long entry (tag 5, value
42), which occupies logical slots 1 and 2. -/
def poolBytesLong : List Nat := [0, 3, 5, 0, 0, 0, 0, 0, 0, 0, 42]

/-- Modelled from the spec: the model-pass constant-pool dispatcher is
absent from src/ (the call in `ParseClass` is commented out and the
function it would call does not exist there); per the spec a Long/Double
entry "occupies its own index *and* makes the following index unusable
(decoder must skip it)".  The skipped slot is represented with the
source's `WideConstantPart2` placeholder variant. -/
def modelPoolAddLong (value : Int) (pool : List CPItem) : List CPItem :=
  pool ++ [CPItem.longConstant value, CPItem.wideConstantPart2]

/-- A model pool with a long constant at logical index 1 (slot 2 skipped). -/
def modelPoolLong : List CPItem := modelPoolAddLong 42 []

/-- C2: for a decoded class, a resolution accessor whose hop lands on a
pool entry of the wrong kind does NOT return a recoverable
malformed-cross-reference result — the source performs unchecked interface
type assertions, which panic.  `Class.Name` with `thisClass = 1` over a
pool whose first entry is a UTF-8 string panics on `.(classInfo)`, and
`methodRef.methodName` panics when the second hop lands on a non-UTF-8
entry.  `none` is the embedding of that panic. -/
theorem accessors_panic_on_wrong_kind :
    (GoClass.mk 0 0 [CPItem.utf8String "Foo"] 0 1 0 [] [] []).Name = none ∧
    methodRefMethodName [CPItem.nameAndType 2 2, CPItem.classInfo 1] 1 = none := by
  constructor <;> rfl

/-- C3: the failed state is NOT observable to the caller.  `ParseClass` on
a 4-byte buffer (magic only) runs at least thirteen reads past the buffer
end, yet returns a nil error (`false`): each read assigns `r.err` on a
value-receiver copy, so the failure is lost.  The second conjunct shows a
single past-the-end `u2` on that buffer: it returns the zero value and a
parser whose `err` flag is still `false`. -/
theorem read_failure_not_sticky :
    ParseClass magicOnly = some (goClassZero, false) ∧
    ByteParser.u2 ⟨magicOnly, 4, false⟩ = (0, ⟨magicOnly, 4, false⟩) := by
  constructor <;> rfl

/-- C7: the provenance decoder does skip the slot after a long entry (one
item section, labelled "constant pool with 1 items", for two logical
slots), but a reference that resolves to the skipped slot is not reported
as a malformed cross-reference: `getConstantPoolItemAt` hands back the raw
`WideConstantPart2` placeholder, and every typed accessor (here
`methodRef.methodName`) panics on its unchecked type assertion (`none`). -/
theorem wide_slot_skipped_but_reference_panics :
    (match parseConstantPool poolBytesLong 0 0 with
      | some (_, some s, _) => (s.Name, s.Children.length)
      | _ => ("", 0)) = ("constant pool with 1 items", 2) ∧
    GoClass.getConstantPoolItemAt (GoClass.mk 0 0 modelPoolLong 0 0 0 [] [] []) 2 =
      some CPItem.wideConstantPart2 ∧
    methodRefMethodName modelPoolLong 2 = none := by
  refine ⟨rfl, rfl, rfl⟩

/-- C8: an unrecognized descriptor character is not a scoped
malformed-descriptor error: `parseSigniture` calls `log.Panicf`, which
panics (modelled as `none`) and — with no `recover` anywhere in the source
— would abort the entire class decode, not just that method.  A recognized
descriptor parses normally. -/
theorem parseSigniture_panics_on_unrecognized :
    parseSigniture "(Q)V" = none ∧ parseSigniture "(IJ)V" = some ["int", "long", "void"] := by
  constructor <;> rfl

/-- C10: not every read path validates the remaining length: the
provenance pass `parseClass` panics on the valid-magic, 4-byte buffer.
After `parseVersion` advances `next` to 8 (its `err` guard is dead code),
`parseConstantPool` evaluates `bytes[8:]` on a 4-byte slice — an
out-of-bounds slice expression, i.e. a panic (`none`). -/
theorem parseClass_panics_out_of_bounds : parseClass magicOnly = none := by rfl

/-- C1 counterexample: a 16-byte all-zero buffer whose first 4 bytes are
not the magic number still yields six sections from the provenance pass —
it is not an empty section forest. -/
theorem badMagic_sections_not_empty :
    ((newByteParser zeros16 0).u4).1 ≠ 0xCAFEBABE ∧
    (parseClass zeros16).map List.length = some 6 := by
  constructor
  · decide
  · rfl

/-! ## C6: the hex token array -/

theorem hexVal_hexDigitChar : ∀ d < 16, hexVal (hexDigitChar d) = some d := by decide

theorem classTokens_cons (b : Nat) (rest : List Nat) :
    classTokens (b :: rest) =
      String.mk [hexDigitChar (byteVal b / 16), hexDigitChar (byteVal b % 16)] ::
        classTokens rest := rfl

theorem classTokens_length (bs : List Nat) : (classTokens bs).length = bs.length := by
  induction bs with
  | nil => rfl
  | cons b rest ih => rw [classTokens_cons, List.length_cons, List.length_cons, ih]

theorem concatTokens_toList (l : List String) :
    (concatTokens l).toList = l.flatMap String.toList := by
  unfold concatTokens
  have aux : ∀ (l : List String) (a : String),
      (l.foldl (fun x y => x ++ y) a).toList = a.toList ++ l.flatMap String.toList := by
    intro l
    induction l with
    | nil => intro a; simp
    | cons s rest ih =>
      intro a
      rw [List.foldl_cons, ih, List.flatMap_cons]
      show (a.toList ++ s.toList) ++ _ = _
      rw [List.append_assoc]
  rw [aux]
  rfl

theorem hexDecode_stream (bs : List Nat) (h : ∀ b ∈ bs, b < 256) :
    hexDecodeChars ((classTokens bs).flatMap String.toList) = some bs := by
  induction bs with
  | nil => rfl
  | cons b rest ih =>
    have hb : b < 256 := h b (by simp)
    have hrest : ∀ x ∈ rest, x < 256 := fun x hx => h x (by simp [hx])
    have hbv : byteVal b = b := Nat.mod_eq_of_lt hb
    have hdiv : byteVal b / 16 < 16 := by rw [hbv]; omega
    have hmod : byteVal b % 16 < 16 := by omega
    rw [classTokens_cons, List.flatMap_cons]
    show hexDecodeChars (hexDigitChar (byteVal b / 16) :: hexDigitChar (byteVal b % 16) ::
      (classTokens rest).flatMap String.toList) = some (b :: rest)
    rw [hexDecodeChars, hexVal_hexDigitChar _ hdiv, hexVal_hexDigitChar _ hmod, ih hrest]
    show some ((byteVal b / 16 * 16 + byteVal b % 16) :: rest) = some (b :: rest)
    rw [hbv]
    have hb16 : b / 16 * 16 + b % 16 = b := by omega
    rw [hb16]

/-- C6: the hex token array has exactly one two-character token per input
byte, and concatenating the tokens and hex-decoding the result reproduces
the input buffer exactly. -/
theorem hex_tokens_roundtrip (bs : List Nat) (h : ∀ b ∈ bs, b < 256) :
    (classTokens bs).length = bs.length ∧
    hexDecode (concatTokens (classTokens bs)) = some bs := by
  refine ⟨classTokens_length bs, ?_⟩
  show hexDecodeChars (concatTokens (classTokens bs)).toList = some bs
  rw [concatTokens_toList]
  exact hexDecode_stream bs h

/-- C6 witness: the roundtrip evaluated on the concrete 4-byte buffer
`magicOnly`. -/
theorem hex_tokens_roundtrip_witness :
    (∀ b ∈ magicOnly, b < 256) ∧
    ((classTokens magicOnly).length = magicOnly.length ∧
      hexDecode (concatTokens (classTokens magicOnly)) = some magicOnly) :=
  ⟨by decide, hex_tokens_roundtrip magicOnly (by decide)⟩

/-! ## C9: the model pass never populates the constant pool -/

theorem cpGet_nil (idx : Nat) : cpGet [] idx = none := by
  simp [cpGet]

theorem parseMethods_nil_pool (n : Nat) (p : ByteParser) (ms : List GoMethod)
    (p' : ByteParser) (h : parseMethods [] n p = some (ms, p')) : ms = [] := by
  cases n with
  | zero =>
    simp only [parseMethods, Option.some.injEq, Prod.mk.injEq] at h
    exact h.1.symm
  | succ k =>
    simp [parseMethods, cpGet_nil] at h

theorem getFieldAux_nil_pool (name : String) :
    ∀ fs : List GoField, getFieldAux [] name fs = none := by
  intro fs
  cases fs with
  | nil => rfl
  | cons f rest => simp [getFieldAux, cpGet_nil]

/-- C9: for every input on which the model pass returns (rather than
panics), the resulting class has an empty constant pool — the population
call is commented out — and no methods, so every pool-dependent accessor
is unusable: `Name`, `getSuperName` and `getField` panic (`none`),
`hasMethodCalled` can only answer `false`, and `resolveMethod` can only
answer "not found" with an empty diagnostic list. -/
theorem parseClass_pool_never_populated (bytes : List Nat) (c : GoClass) (e : Bool)
    (h : ParseClass bytes = some (c, e)) :
    c.ConstantPoolItems = [] ∧ c.methods = [] ∧ c.Name = none ∧ c.getSuperName = none ∧
    (∀ n, c.hasMethodCalled n = some false) ∧
    (∀ n d, c.resolveMethod n d = some (none, [])) ∧
    (∀ n, c.getField n = none) := by
  unfold ParseClass at h
  simp only [] at h
  rw [Option.bind_eq_bind', Option.bind_eq_some'] at h
  obtain ⟨⟨ms, p'⟩, hpm, hsome⟩ := h
  have hms : ms = [] := parseMethods_nil_pool _ _ _ _ hpm
  subst hms
  simp only [Option.some.injEq, Prod.mk.injEq] at hsome
  obtain ⟨hc, -⟩ := hsome
  subst hc
  refine ⟨rfl, rfl, ?_, ?_, fun n => rfl, fun n d => rfl, fun n => getFieldAux_nil_pool n _⟩
  · simp [GoClass.Name, cpGet_nil]
  · simp [GoClass.getSuperName, cpGet_nil]

/-- C9 witness: the theorem applied to the concrete 4-byte buffer
`magicOnly`, on which `ParseClass` returns the all-zero class. -/
theorem parseClass_pool_never_populated_witness :
    goClassZero.ConstantPoolItems = [] ∧ goClassZero.Name = none ∧
    goClassZero.hasMethodCalled "main" = some false ∧
    goClassZero.resolveMethod "main" "([Ljava/lang/String;)V" = some (none, []) ∧
    goClassZero.getField "out" = none := by
  have h := parseClass_pool_never_populated magicOnly goClassZero false rfl
  exact ⟨h.1, h.2.2.1, h.2.2.2.2.1 "main", h.2.2.2.2.2.1 "main" _, h.2.2.2.2.2.2 "out"⟩

/-! ## C1: bad magic number -/

theorem u1_err (p : ByteParser) (h : p.err = true) : p.u1 = (0, p) := by
  simp [ByteParser.u1, h]

theorem u2_err (p : ByteParser) (h : p.err = true) : p.u2 = (0, p) := by
  simp [ByteParser.u2, h]

theorem u4_err (p : ByteParser) (h : p.err = true) : p.u4 = (0, p) := by
  simp [ByteParser.u4, h]

theorem newClassDecoder_err (bytes : List Nat)
    (h : ((⟨bytes, 0, false⟩ : ByteParser).u4).1 ≠ 0xCAFEBABE) :
    (newClassDecoder bytes).err = true := by
  unfold newClassDecoder
  simp only []
  rw [if_pos h]

theorem ParseClass_of_err (bytes : List Nat) (h : (newClassDecoder bytes).err = true) :
    ParseClass bytes = some (goClassZero, true) := by
  unfold ParseClass
  generalize hc : newClassDecoder bytes = cr at h ⊢
  simp [u2_err _ h, readInterfaces, parseFields, parseMethods, skipAttrs, goClassZero, h]

/-- C1 amended: when the first four bytes are not `0xCAFEBABE`, the model
decoder returns a non-nil error together with the all-zero class (its
sticky flag makes every later read yield zero), and `parseMagicNumber`
emits no section and does not advance — but the provenance pass as a whole
does not stop there: the remaining parsers still run (see the
counterexample, where six sections are produced). -/
theorem badMagic_model_errors_magic_section_absent (bytes : List Nat) (g : Nat)
    (h : ((newByteParser bytes 0).u4).1 ≠ 0xCAFEBABE) :
    parseMagicNumber bytes 0 g = some (0, none, g) ∧
    ParseClass bytes = some (goClassZero, true) := by
  have h' : ((⟨bytes, 0, false⟩ : ByteParser).u4).1 ≠ 0xCAFEBABE := h
  constructor
  · unfold parseMagicNumber
    split
    · rw [if_pos (Nat.zero_le _)]
      simp only []
      rw [if_neg h]
    · rfl
  · exact ParseClass_of_err bytes (newClassDecoder_err bytes h')

/-- C1 witness: the amended theorem at the 16-byte all-zero buffer. -/
theorem badMagic_witness :
    ((newByteParser zeros16 0).u4).1 ≠ 0xCAFEBABE ∧
    (parseMagicNumber zeros16 0 0 = some (0, none, 0) ∧
      ParseClass zeros16 = some (goClassZero, true)) :=
  ⟨by decide, badMagic_model_errors_magic_section_absent zeros16 0 (by decide)⟩

/-! ## C4/C5 machinery: chains, goodness, id intervals -/

/-- A section is good (containment everywhere; non-overlap and order except
for the access-flags children) at every fuel. -/
def GoodS (s : Section) : Prop := ∀ fuel, goodSectionF fuel s = true

/-- A section's ids (at every fuel) are distinct and lie in `[lo, hi)`. -/
def IdsOkS (lo hi : Nat) (s : Section) : Prop :=
  ∀ fuel, (idsOfF fuel s).Nodup ∧ ∀ x ∈ idsOfF fuel s, lo ≤ x ∧ x < hi

/-- A forest's ids (at every fuel) are distinct and lie in `[lo, hi)`. -/
def IdsOk (lo hi : Nat) (cs : List Section) : Prop :=
  ∀ fuel, (idsFlatF fuel cs).Nodup ∧ ∀ x ∈ idsFlatF fuel cs, lo ≤ x ∧ x < hi

/-- Siblings occupy consecutive ranges starting at `lo` and ending by `hi`. -/
def ChainOk (lo : Nat) (cs : List Section) (hi : Nat) : Prop :=
  chainB lo cs = true ∧ ∀ c ∈ cs, c.EndIndex ≤ hi

theorem idsFlatF_nil (fuel : Nat) : idsFlatF fuel [] = [] := rfl

theorem idsFlatF_cons (fuel : Nat) (s : Section) (rest : List Section) :
    idsFlatF fuel (s :: rest) = idsOfF fuel s ++ idsFlatF fuel rest := by
  simp [idsFlatF]

theorem idsOk_nil (lo hi : Nat) : IdsOk lo hi [] := by
  intro fuel
  exact ⟨List.nodup_nil, by simp [idsFlatF]⟩

theorem idsOkS_mono {lo hi lo' hi' : Nat} {s : Section} (h : IdsOkS lo hi s)
    (h1 : lo' ≤ lo) (h2 : hi ≤ hi') : IdsOkS lo' hi' s := by
  intro fuel
  obtain ⟨hnd, hb⟩ := h fuel
  exact ⟨hnd, fun x hx => ⟨le_trans h1 (hb x hx).1, lt_of_lt_of_le (hb x hx).2 h2⟩⟩

theorem idsOk_mono {lo hi lo' hi' : Nat} {cs : List Section} (h : IdsOk lo hi cs)
    (h1 : lo' ≤ lo) (h2 : hi ≤ hi') : IdsOk lo' hi' cs := by
  intro fuel
  obtain ⟨hnd, hb⟩ := h fuel
  exact ⟨hnd, fun x hx => ⟨le_trans h1 (hb x hx).1, lt_of_lt_of_le (hb x hx).2 h2⟩⟩

theorem idsOk_cons {lo mid hi : Nat} {s : Section} {rest : List Section}
    (hs : IdsOkS lo mid s) (hrest : IdsOk mid hi rest)
    (hlm : lo ≤ mid) (hmh : mid ≤ hi) : IdsOk lo hi (s :: rest) := by
  intro fuel
  obtain ⟨hnd1, hb1⟩ := hs fuel
  obtain ⟨hnd2, hb2⟩ := hrest fuel
  rw [idsFlatF_cons]
  constructor
  · refine List.Nodup.append hnd1 hnd2 ?_
    intro x hx1 hx2
    exact absurd (hb2 x hx2).1 (by have := (hb1 x hx1).2; omega)
  · intro x hx
    rcases List.mem_append.mp hx with hx | hx
    · have := hb1 x hx
      omega
    · have := hb2 x hx
      omega

theorem idsOfF_leaf (fuel : Nat) (s : Section) (h : s.Children = []) :
    idsOfF fuel s = [] ∨ idsOfF fuel s = [s.Id] := by
  cases fuel with
  | zero => exact Or.inl rfl
  | succ fuel => exact Or.inr (by simp [idsOfF, h])

theorem idsFlatF_leaves_sublist (fuel : Nat) (cs : List Section)
    (h : ∀ c ∈ cs, c.Children = []) :
    (idsFlatF fuel cs).Sublist (cs.map Section.Id) := by
  induction cs with
  | nil => simp [idsFlatF]
  | cons c rest ih =>
    rw [idsFlatF_cons, List.map_cons]
    have hrest := ih (fun x hx => h x (List.mem_cons_of_mem _ hx))
    rcases idsOfF_leaf fuel c (h c (List.mem_cons_self _ _)) with hc | hc
    · rw [hc]
      exact List.Sublist.cons _ hrest
    · rw [hc]
      exact List.Sublist.cons₂ _ hrest

theorem idsOk_leaves {lo hi : Nat} (cs : List Section)
    (hleaf : ∀ c ∈ cs, c.Children = [])
    (hnd : (cs.map Section.Id).Nodup)
    (hb : ∀ c ∈ cs, lo ≤ c.Id ∧ c.Id < hi) : IdsOk lo hi cs := by
  intro fuel
  have hsub := idsFlatF_leaves_sublist fuel cs hleaf
  constructor
  · exact List.Nodup.sublist hsub hnd
  · intro x hx
    have : x ∈ cs.map Section.Id := hsub.subset hx
    obtain ⟨c, hc, hid⟩ := List.mem_map.mp this
    rw [← hid]
    exact hb c hc

theorem idsOkS_node_pre (s : Section) (lo mid hi : Nat)
    (hid : lo ≤ s.Id ∧ s.Id < mid) (hch : IdsOk mid hi s.Children)
    (hmh : mid ≤ hi) : IdsOkS lo hi s := by
  intro fuel
  cases fuel with
  | zero => exact ⟨List.nodup_nil, by simp [idsOfF]⟩
  | succ fuel =>
    obtain ⟨hnd, hb⟩ := hch fuel
    show ((s.Id :: s.Children.flatMap (idsOfF fuel)).Nodup ∧ _)
    constructor
    · refine List.nodup_cons.mpr ⟨?_, hnd⟩
      intro hmem
      have := hb _ hmem
      omega
    · intro x hx
      rcases List.mem_cons.mp hx with hx | hx
      · omega
      · have := hb x hx
        omega

theorem idsOkS_node_post (s : Section) (lo mid hi : Nat)
    (hch : IdsOk lo mid s.Children) (hid : mid ≤ s.Id ∧ s.Id < hi)
    (hlm : lo ≤ mid) : IdsOkS lo hi s := by
  intro fuel
  cases fuel with
  | zero => exact ⟨List.nodup_nil, by simp [idsOfF]⟩
  | succ fuel =>
    obtain ⟨hnd, hb⟩ := hch fuel
    show ((s.Id :: s.Children.flatMap (idsOfF fuel)).Nodup ∧ _)
    constructor
    · refine List.nodup_cons.mpr ⟨?_, hnd⟩
      intro hmem
      have := hb _ hmem
      omega
    · intro x hx
      rcases List.mem_cons.mp hx with hx | hx
      · omega
      · have := hb x hx
        omega

theorem idsOkS_leaf (s : Section) (lo hi : Nat) (h : s.Children = [])
    (hb : lo ≤ s.Id ∧ s.Id < hi) : IdsOkS lo hi s := by
  intro fuel
  rcases idsOfF_leaf fuel s h with he | he <;> rw [he]
  · exact ⟨List.nodup_nil, by simp⟩
  · exact ⟨List.nodup_singleton _, by simpa using hb⟩

theorem chainB_le (cs : List Section) : ∀ lo, chainB lo cs = true →
    ∀ c ∈ cs, lo ≤ c.StartIndex ∧ c.StartIndex ≤ c.EndIndex := by
  induction cs with
  | nil => intro lo _ c hc; exact absurd hc (List.not_mem_nil c)
  | cons a rest ih =>
    intro lo h c hc
    rw [chainB] at h
    simp only [Bool.and_eq_true, decide_eq_true_eq] at h
    obtain ⟨⟨h1, h2⟩, h3⟩ := h
    rcases List.mem_cons.mp hc with hc | hc
    · subst hc; exact ⟨h1, h2⟩
    · have := ih a.EndIndex h3 c hc
      omega

theorem chainB_disjoint (cs : List Section) : ∀ lo, chainB lo cs = true →
    pairwiseDisjointB cs = true := by
  induction cs with
  | nil => intro _ _; rfl
  | cons a rest ih =>
    intro lo h
    rw [chainB] at h
    simp only [Bool.and_eq_true, decide_eq_true_eq] at h
    obtain ⟨⟨h1, h2⟩, h3⟩ := h
    rw [pairwiseDisjointB]
    simp only [Bool.and_eq_true, List.all_eq_true]
    refine ⟨fun c hc => ?_, ih _ h3⟩
    have := chainB_le rest a.EndIndex h3 c hc
    simp only [disjointRanges, Bool.or_eq_true, decide_eq_true_eq]
    omega

theorem chainB_sorted (cs : List Section) : ∀ lo, chainB lo cs = true →
    sortedByStartB cs = true := by
  induction cs with
  | nil => intro _ _; rfl
  | cons a rest ih =>
    intro lo h
    rw [chainB] at h
    simp only [Bool.and_eq_true, decide_eq_true_eq] at h
    obtain ⟨⟨h1, h2⟩, h3⟩ := h
    cases rest with
    | nil => rfl
    | cons b rest2 =>
      rw [sortedByStartB]
      simp only [Bool.and_eq_true, decide_eq_true_eq]
      constructor
      · have := chainB_le (b :: rest2) a.EndIndex h3 b (List.mem_cons_self _ _)
        omega
      · exact ih _ h3

theorem containB_of_chain (st en : Nat) (cs : List Section)
    (hch : chainB st cs = true) (hend : ∀ c ∈ cs, c.EndIndex ≤ en) :
    containB st en cs = true := by
  rw [containB]
  simp only [List.all_eq_true, Bool.and_eq_true, decide_eq_true_eq]
  intro c hc
  exact ⟨(chainB_le cs st hch c hc).1, hend c hc⟩

theorem chainOk_nil (lo hi : Nat) : ChainOk lo [] hi :=
  ⟨rfl, fun c hc => absurd hc (List.not_mem_nil c)⟩

theorem chainOk_cons {lo hi : Nat} {s : Section} {rest : List Section}
    (hlo : lo ≤ s.StartIndex) (hse : s.StartIndex ≤ s.EndIndex)
    (hrest : ChainOk s.EndIndex rest hi) (hhi : s.EndIndex ≤ hi) :
    ChainOk lo (s :: rest) hi := by
  refine ⟨?_, ?_⟩
  · rw [chainB]
    simp only [Bool.and_eq_true, decide_eq_true_eq]
    exact ⟨⟨hlo, hse⟩, hrest.1⟩
  · intro c hc
    rcases List.mem_cons.mp hc with hc | hc
    · subst hc; exact hhi
    · exact hrest.2 c hc

theorem goodSectionF_leaf (fuel : Nat) (c : Section) (h : c.Children = []) :
    goodSectionF fuel c = true := by
  cases fuel with
  | zero => rfl
  | succ fuel => simp [goodSectionF, h, containB, pairwiseDisjointB, sortedByStartB]

theorem goodS_node (s : Section)
    (hcont : containB s.StartIndex s.EndIndex s.Children = true)
    (hok : s.Name = "access flags" ∨
      (pairwiseDisjointB s.Children = true ∧ sortedByStartB s.Children = true))
    (hch : ∀ c ∈ s.Children, GoodS c) : GoodS s := by
  intro fuel
  cases fuel with
  | zero => rfl
  | succ fuel =>
    rw [goodSectionF]
    simp only [Bool.and_eq_true, List.all_eq_true, Bool.or_eq_true, beq_iff_eq]
    refine ⟨⟨hcont, ?_⟩, fun c hc => hch c hc fuel⟩
    rcases hok with hok | hok
    · exact Or.inl hok
    · exact Or.inr hok

theorem goodS_of_chain (s : Section)
    (hch : chainB s.StartIndex s.Children = true)
    (hend : ∀ c ∈ s.Children, c.EndIndex ≤ s.EndIndex)
    (hcg : ∀ c ∈ s.Children, GoodS c) : GoodS s :=
  goodS_node s (containB_of_chain _ _ _ hch hend)
    (Or.inr ⟨chainB_disjoint _ _ hch, chainB_sorted _ _ hch⟩) hcg

theorem goodS_leaf (s : Section) (h : s.Children = []) : GoodS s :=
  fun fuel => goodSectionF_leaf fuel s h


/-- Well-formed parser output: `next` and the id counter advance, and an
emitted section spans `[index, next)`, is good, and draws its ids from the
consumed counter interval. -/
def OutOk (index g : Nat) (r : Option (Nat × Option Section × Nat)) : Prop :=
  ∀ next osec g', r = some (next, osec, g') →
    index ≤ next ∧ g ≤ g' ∧
    ∀ s, osec = some s → s.StartIndex = index ∧ s.EndIndex = next ∧ GoodS s ∧ IdsOkS g g' s

theorem parseMagicNumber_out (bytes : List Nat) (index g : Nat) :
    OutOk index g (parseMagicNumber bytes index g) := by
  intro next osec g' h
  unfold parseMagicNumber at h
  simp only [] at h
  split at h
  · split at h
    · split at h
      · injection h with h
        injection h with h1 h
        injection h with h2 h3
        subst h1; subst h2; subst h3
        refine ⟨Nat.le_add_right _ _, Nat.le_succ _, ?_⟩
        intro s hs
        injection hs with hs
        subst hs
        exact ⟨rfl, rfl, goodS_leaf _ rfl, idsOkS_leaf _ _ _ rfl ⟨le_refl _, Nat.lt_succ_self _⟩⟩
      · injection h with h
        injection h with h1 h
        injection h with h2 h3
        subst h1; subst h2; subst h3
        exact ⟨le_refl _, le_refl _, fun s hs => nomatch hs⟩
    · exact nomatch h
  · injection h with h
    injection h with h1 h
    injection h with h2 h3
    subst h1; subst h2; subst h3
    exact ⟨le_refl _, le_refl _, fun s hs => nomatch hs⟩

theorem parseThisClass_out (bytes : List Nat) (index g : Nat) :
    OutOk index g (parseThisClass bytes index g) := by
  intro next osec g' h
  unfold parseThisClass at h
  simp only [] at h
  split at h
  · cases h
    refine ⟨Nat.le_add_right _ _, Nat.le_succ _, ?_⟩
    intro s hs
    cases hs
    exact ⟨rfl, rfl, goodS_leaf _ rfl, idsOkS_leaf _ _ _ rfl ⟨le_refl _, Nat.lt_succ_self _⟩⟩
  · exact nomatch h

theorem parseSuperClass_out (bytes : List Nat) (index g : Nat) :
    OutOk index g (parseSuperClass bytes index g) := by
  intro next osec g' h
  unfold parseSuperClass at h
  simp only [] at h
  split at h
  · cases h
    refine ⟨Nat.le_add_right _ _, Nat.le_succ _, ?_⟩
    intro s hs
    cases hs
    exact ⟨rfl, rfl, goodS_leaf _ rfl, idsOkS_leaf _ _ _ rfl ⟨le_refl _, Nat.lt_succ_self _⟩⟩
  · exact nomatch h

theorem parseVersion_out (bytes : List Nat) (index g : Nat) :
    OutOk index g (parseVersion bytes index g) := by
  intro next osec g' h
  unfold parseVersion at h
  simp only [] at h
  split at h
  · split at h
    · split at h
      · cases h
        refine ⟨Nat.le_add_right _ _, Nat.le_add_right _ _, ?_⟩
        intro s hs
        cases hs
        refine ⟨rfl, rfl, ?_, ?_⟩
        · refine goodS_of_chain _ ?_ ?_ ?_
          · simp [chainB]
          · intro c hc
            simp only [List.mem_cons, List.not_mem_nil, or_false] at hc
            rcases hc with rfl | rfl <;> simp
          · intro c hc
            simp only [List.mem_cons, List.not_mem_nil, or_false] at hc
            rcases hc with rfl | rfl <;> exact goodS_leaf _ rfl
        · refine idsOkS_node_post _ g (g + 2) (g + 3) ?_ ⟨le_refl _, Nat.lt_succ_self _⟩ (by omega)
          refine idsOk_leaves _ ?_ ?_ ?_
          · intro c hc
            simp only [List.mem_cons, List.not_mem_nil, or_false] at hc
            rcases hc with rfl | rfl <;> rfl
          · simp
          · intro c hc
            simp only [List.mem_cons, List.not_mem_nil, or_false] at hc
            rcases hc with rfl | rfl <;> refine ⟨?_, ?_⟩ <;> dsimp only <;> omega
      · cases h
        exact ⟨le_refl _, le_refl _, fun s hs => nomatch hs⟩
    · exact nomatch h
  · cases h
    exact ⟨le_refl _, le_refl _, fun s hs => nomatch hs⟩

theorem parseAccessFlags_out (bytes : List Nat) (index g : Nat) :
    OutOk index g (parseAccessFlags bytes index g) := by
  intro next osec g' h
  unfold parseAccessFlags at h
  simp only [] at h
  split at h
  · cases h
    refine ⟨Nat.le_add_right _ _, by omega, ?_⟩
    intro s hs
    cases hs
    refine ⟨rfl, rfl, ?_, ?_⟩
    · refine goodS_node _ ?_ (Or.inl rfl) ?_
      · rw [containB]
        simp only [List.all_cons, List.all_nil, Bool.and_eq_true, decide_eq_true_eq]
        repeat' constructor
      · intro c hc
        simp only [List.mem_cons, List.not_mem_nil, or_false] at hc
        rcases hc with rfl | rfl | rfl | rfl | rfl | rfl | rfl | rfl | rfl | rfl <;>
          exact goodS_leaf _ rfl
    · refine idsOkS_node_post _ g (g + 10) (g + 11) ?_ ⟨le_refl _, Nat.lt_succ_self _⟩ (by omega)
      refine idsOk_leaves _ ?_ ?_ ?_
      · intro c hc
        simp only [List.mem_cons, List.not_mem_nil, or_false] at hc
        rcases hc with rfl | rfl | rfl | rfl | rfl | rfl | rfl | rfl | rfl | rfl <;> rfl
      · simp
      · intro c hc
        simp only [List.mem_cons, List.not_mem_nil, or_false] at hc
        rcases hc with rfl | rfl | rfl | rfl | rfl | rfl | rfl | rfl | rfl | rfl <;>
          refine ⟨?_, ?_⟩ <;> dsimp only <;> omega
  · exact nomatch h

theorem chainB_mono {lo' lo : Nat} (cs : List Section) (hle : lo' ≤ lo)
    (h : chainB lo cs = true) : chainB lo' cs = true := by
  cases cs with
  | nil => rfl
  | cons c rest =>
    rw [chainB] at h ⊢
    simp only [Bool.and_eq_true, decide_eq_true_eq] at h ⊢
    exact ⟨⟨le_trans hle h.1.1, h.1.2⟩, h.2⟩

theorem interfacesLoop_inv : ∀ (n : Nat) (p : ByteParser) (next g : Nat)
    (cs : List Section) (next' g' : Nat),
    interfacesLoop n p next g = (cs, next', g') →
    next ≤ next' ∧ g ≤ g' ∧ ChainOk next cs next' ∧ (∀ s ∈ cs, GoodS s) ∧
      IdsOk g g' cs := by
  intro n
  induction n with
  | zero =>
    intro p next g cs next' g' h
    cases h
    exact ⟨le_refl _, le_refl _, chainOk_nil _ _,
      fun s hs => absurd hs (List.not_mem_nil s), idsOk_nil _ _⟩
  | succ n ih =>
    intro p next g cs next' g' h
    rw [interfacesLoop] at h
    simp only [] at h
    rcases hrec : interfacesLoop n (p.u2).2 (next + 2) (g + 1) with ⟨cs0, n0, g0⟩
    rw [hrec] at h
    dsimp only at h
    cases h
    obtain ⟨hn, hg, hchain, hgood, hids⟩ := ih _ _ _ _ _ _ hrec
    refine ⟨by omega, by omega, ?_, ?_, ?_⟩
    · exact chainOk_cons (le_refl _) (by dsimp only; omega) hchain (by dsimp only; omega)
    · intro s hs
      rcases List.mem_cons.mp hs with rfl | hs
      · exact goodS_leaf _ rfl
      · exact hgood s hs
    · exact idsOk_cons (idsOkS_leaf _ _ _ rfl ⟨le_refl _, Nat.lt_succ_self _⟩) hids
        (Nat.le_succ _) hg

theorem parseInterfaces_out (bytes : List Nat) (index g : Nat) :
    OutOk index g (parseInterfaces bytes index g) := by
  intro next osec g' h
  unfold parseInterfaces at h
  simp only [] at h
  split at h
  · rcases hrec : interfacesLoop ((newByteParser bytes index).u2).1
        ((newByteParser bytes index).u2).2 (index + 2) g with ⟨cs0, n0, g0⟩
    rw [hrec] at h
    dsimp only at h
    cases h
    obtain ⟨hn, hg, hchain, hgood, hids⟩ := interfacesLoop_inv _ _ _ _ _ _ _ hrec
    refine ⟨by omega, by omega, ?_⟩
    intro s hs
    cases hs
    refine ⟨rfl, rfl, ?_, ?_⟩
    · exact goodS_of_chain _ (chainB_mono _ (by dsimp only; omega) hchain.1) hchain.2 hgood
    · exact idsOkS_node_post _ g g0 (g0 + 1) hids ⟨le_refl _, Nat.lt_succ_self _⟩ hg
  · exact nomatch h

/-- Invariant of the constant-pool entry loop: offsets and ids advance, the
emitted items chain within the consumed byte range, are good, and draw
distinct ids from the consumed counter interval. -/
def LoopInv (next g : Nat) : List Section × Nat × Nat → Prop
  | (cs, next', g') =>
    next ≤ next' ∧ g ≤ g' ∧ ChainOk next cs next' ∧ (∀ s ∈ cs, GoodS s) ∧ IdsOk g g' cs

theorem loopInv_nil_le (n n' g g' : Nat) (h1 : n ≤ n') (h2 : g ≤ g') :
    LoopInv n g ([], n', g') :=
  ⟨h1, h2, ⟨rfl, fun c hc => absurd hc (List.not_mem_nil c)⟩,
    fun s hs => absurd hs (List.not_mem_nil s), idsOk_nil _ _⟩

theorem cpStep (next g en gk : Nat) (nm : String) (kids : List Section)
    (r : List Section × Nat × Nat)
    (hen : next ≤ en) (hgk : g + 1 ≤ gk)
    (hkchain : chainB next kids = true)
    (hkend : ∀ c ∈ kids, c.EndIndex ≤ en)
    (hkleaf : ∀ c ∈ kids, c.Children = [])
    (hknodup : (kids.map Section.Id).Nodup)
    (hkb : ∀ c ∈ kids, g + 1 ≤ c.Id ∧ c.Id < gk)
    (hr : LoopInv en gk r) :
    LoopInv next g ((⟨next, en, nm, kids, g⟩ : Section) :: r.1, r.2.1, r.2.2) := by
  obtain ⟨cs0, n0, g0⟩ := r
  obtain ⟨hn, hg, hchain, hgood, hids⟩ := hr
  dsimp only
  refine ⟨by omega, by omega, ?_, ?_, ?_⟩
  · exact chainOk_cons (le_refl _) hen hchain hn
  · intro s hs
    rcases List.mem_cons.mp hs with rfl | hs
    · exact goodS_of_chain _ hkchain hkend (fun c hc => goodS_leaf c (hkleaf c hc))
    · exact hgood s hs
  · refine idsOk_cons ?_ hids (by omega) hg
    exact idsOkS_node_pre _ g (g + 1) gk ⟨le_refl _, Nat.lt_succ_self _⟩
      (idsOk_leaves kids hkleaf hknodup hkb) hgk

set_option maxHeartbeats 4000000 in
theorem cpItemsLoop_inv : ∀ (rem i : Nat) (p : ByteParser) (next g : Nat),
    LoopInv next g (cpItemsLoop rem i p next g) := by
  intro rem
  induction rem using Nat.strong_induction_on with
  | _ rem ih =>
    cases rem with
    | zero =>
      intro i p next g
      exact loopInv_nil_le _ _ _ _ (le_refl _) (le_refl _)
    | succ rem' =>
      intro i p next g
      rw [cpItemsLoop]
      dsimp only
      split
      · -- tag 1: UTF-8 string (three leaf children)
        refine cpStep _ _ _ _ _ _ _ ?_ ?_ ?_ ?_ ?_ ?_ ?_ (ih rem' (by omega) _ _ _ _)
        · omega
        · omega
        · simp [chainB] <;> omega
        · intro c hc
          simp only [List.mem_cons, List.not_mem_nil, or_false] at hc
          rcases hc with rfl | rfl | rfl <;> dsimp only <;> omega
        · intro c hc
          simp only [List.mem_cons, List.not_mem_nil, or_false] at hc
          rcases hc with rfl | rfl | rfl <;> rfl
        · simp <;> omega
        · intro c hc
          simp only [List.mem_cons, List.not_mem_nil, or_false] at hc
          rcases hc with rfl | rfl | rfl <;> refine ⟨?_, ?_⟩ <;> dsimp only <;> omega
      · -- tag 3: int (two leaf children)
        refine cpStep _ _ _ _ _ _ _ ?_ ?_ ?_ ?_ ?_ ?_ ?_ (ih rem' (by omega) _ _ _ _)
        · omega
        · omega
        · simp [chainB] <;> omega
        · intro c hc
          simp only [List.mem_cons, List.not_mem_nil, or_false] at hc
          rcases hc with rfl | rfl <;> dsimp only <;> omega
        · intro c hc
          simp only [List.mem_cons, List.not_mem_nil, or_false] at hc
          rcases hc with rfl | rfl <;> rfl
        · simp <;> omega
        · intro c hc
          simp only [List.mem_cons, List.not_mem_nil, or_false] at hc
          rcases hc with rfl | rfl <;> refine ⟨?_, ?_⟩ <;> dsimp only <;> omega
      · -- tag 4: float
        refine cpStep _ _ _ _ _ _ _ ?_ ?_ ?_ ?_ ?_ ?_ ?_ (ih rem' (by omega) _ _ _ _)
        · omega
        · omega
        · simp [chainB] <;> omega
        · intro c hc
          simp only [List.mem_cons, List.not_mem_nil, or_false] at hc
          rcases hc with rfl | rfl <;> dsimp only <;> omega
        · intro c hc
          simp only [List.mem_cons, List.not_mem_nil, or_false] at hc
          rcases hc with rfl | rfl <;> rfl
        · simp <;> omega
        · intro c hc
          simp only [List.mem_cons, List.not_mem_nil, or_false] at hc
          rcases hc with rfl | rfl <;> refine ⟨?_, ?_⟩ <;> dsimp only <;> omega
      · -- tag 5: long (consumes the following slot)
        rcases rem' with _ | r2
        · dsimp only
          refine cpStep _ _ _ _ _ _ _ ?_ ?_ ?_ ?_ ?_ ?_ ?_
            (loopInv_nil_le _ _ _ _ (le_refl _) (le_refl _))
          · omega
          · omega
          · simp [chainB] <;> omega
          · intro c hc
            simp only [List.mem_cons, List.not_mem_nil, or_false] at hc
            rcases hc with rfl | rfl <;> dsimp only <;> omega
          · intro c hc
            simp only [List.mem_cons, List.not_mem_nil, or_false] at hc
            rcases hc with rfl | rfl <;> rfl
          · simp <;> omega
          · intro c hc
            simp only [List.mem_cons, List.not_mem_nil, or_false] at hc
            rcases hc with rfl | rfl <;> refine ⟨?_, ?_⟩ <;> dsimp only <;> omega
        · dsimp only
          refine cpStep _ _ _ _ _ _ _ ?_ ?_ ?_ ?_ ?_ ?_ ?_ (ih r2 (by omega) _ _ _ _)
          · omega
          · omega
          · simp [chainB] <;> omega
          · intro c hc
            simp only [List.mem_cons, List.not_mem_nil, or_false] at hc
            rcases hc with rfl | rfl <;> dsimp only <;> omega
          · intro c hc
            simp only [List.mem_cons, List.not_mem_nil, or_false] at hc
            rcases hc with rfl | rfl <;> rfl
          · simp <;> omega
          · intro c hc
            simp only [List.mem_cons, List.not_mem_nil, or_false] at hc
            rcases hc with rfl | rfl <;> refine ⟨?_, ?_⟩ <;> dsimp only <;> omega
      · -- tag 6: double (consumes the following slot)
        rcases rem' with _ | r2
        · dsimp only
          refine cpStep _ _ _ _ _ _ _ ?_ ?_ ?_ ?_ ?_ ?_ ?_
            (loopInv_nil_le _ _ _ _ (le_refl _) (le_refl _))
          · omega
          · omega
          · simp [chainB] <;> omega
          · intro c hc
            simp only [List.mem_cons, List.not_mem_nil, or_false] at hc
            rcases hc with rfl | rfl <;> dsimp only <;> omega
          · intro c hc
            simp only [List.mem_cons, List.not_mem_nil, or_false] at hc
            rcases hc with rfl | rfl <;> rfl
          · simp <;> omega
          · intro c hc
            simp only [List.mem_cons, List.not_mem_nil, or_false] at hc
            rcases hc with rfl | rfl <;> refine ⟨?_, ?_⟩ <;> dsimp only <;> omega
        · dsimp only
          refine cpStep _ _ _ _ _ _ _ ?_ ?_ ?_ ?_ ?_ ?_ ?_ (ih r2 (by omega) _ _ _ _)
          · omega
          · omega
          · simp [chainB] <;> omega
          · intro c hc
            simp only [List.mem_cons, List.not_mem_nil, or_false] at hc
            rcases hc with rfl | rfl <;> dsimp only <;> omega
          · intro c hc
            simp only [List.mem_cons, List.not_mem_nil, or_false] at hc
            rcases hc with rfl | rfl <;> rfl
          · simp <;> omega
          · intro c hc
            simp only [List.mem_cons, List.not_mem_nil, or_false] at hc
            rcases hc with rfl | rfl <;> refine ⟨?_, ?_⟩ <;> dsimp only <;> omega
      · -- tag 7: class info
        refine cpStep _ _ _ _ _ _ _ ?_ ?_ ?_ ?_ ?_ ?_ ?_ (ih rem' (by omega) _ _ _ _)
        · omega
        · omega
        · simp [chainB] <;> omega
        · intro c hc
          simp only [List.mem_cons, List.not_mem_nil, or_false] at hc
          rcases hc with rfl | rfl <;> dsimp only <;> omega
        · intro c hc
          simp only [List.mem_cons, List.not_mem_nil, or_false] at hc
          rcases hc with rfl | rfl <;> rfl
        · simp <;> omega
        · intro c hc
          simp only [List.mem_cons, List.not_mem_nil, or_false] at hc
          rcases hc with rfl | rfl <;> refine ⟨?_, ?_⟩ <;> dsimp only <;> omega
      · -- tag 8: string constant
        refine cpStep _ _ _ _ _ _ _ ?_ ?_ ?_ ?_ ?_ ?_ ?_ (ih rem' (by omega) _ _ _ _)
        · omega
        · omega
        · simp [chainB] <;> omega
        · intro c hc
          simp only [List.mem_cons, List.not_mem_nil, or_false] at hc
          rcases hc with rfl | rfl <;> dsimp only <;> omega
        · intro c hc
          simp only [List.mem_cons, List.not_mem_nil, or_false] at hc
          rcases hc with rfl | rfl <;> rfl
        · simp <;> omega
        · intro c hc
          simp only [List.mem_cons, List.not_mem_nil, or_false] at hc
          rcases hc with rfl | rfl <;> refine ⟨?_, ?_⟩ <;> dsimp only <;> omega
      · -- tag 9: field ref
        refine cpStep _ _ _ _ _ _ _ ?_ ?_ ?_ ?_ ?_ ?_ ?_ (ih rem' (by omega) _ _ _ _)
        · omega
        · omega
        · simp [chainB] <;> omega
        · intro c hc
          simp only [List.mem_cons, List.not_mem_nil, or_false] at hc
          rcases hc with rfl | rfl | rfl <;> dsimp only <;> omega
        · intro c hc
          simp only [List.mem_cons, List.not_mem_nil, or_false] at hc
          rcases hc with rfl | rfl | rfl <;> rfl
        · simp <;> omega
        · intro c hc
          simp only [List.mem_cons, List.not_mem_nil, or_false] at hc
          rcases hc with rfl | rfl | rfl <;> refine ⟨?_, ?_⟩ <;> dsimp only <;> omega
      · -- tag 10: method ref
        refine cpStep _ _ _ _ _ _ _ ?_ ?_ ?_ ?_ ?_ ?_ ?_ (ih rem' (by omega) _ _ _ _)
        · omega
        · omega
        · simp [chainB] <;> omega
        · intro c hc
          simp only [List.mem_cons, List.not_mem_nil, or_false] at hc
          rcases hc with rfl | rfl | rfl <;> dsimp only <;> omega
        · intro c hc
          simp only [List.mem_cons, List.not_mem_nil, or_false] at hc
          rcases hc with rfl | rfl | rfl <;> rfl
        · simp <;> omega
        · intro c hc
          simp only [List.mem_cons, List.not_mem_nil, or_false] at hc
          rcases hc with rfl | rfl | rfl <;> refine ⟨?_, ?_⟩ <;> dsimp only <;> omega
      · -- tag 11: interface method ref
        refine cpStep _ _ _ _ _ _ _ ?_ ?_ ?_ ?_ ?_ ?_ ?_ (ih rem' (by omega) _ _ _ _)
        · omega
        · omega
        · simp [chainB] <;> omega
        · intro c hc
          simp only [List.mem_cons, List.not_mem_nil, or_false] at hc
          rcases hc with rfl | rfl | rfl <;> dsimp only <;> omega
        · intro c hc
          simp only [List.mem_cons, List.not_mem_nil, or_false] at hc
          rcases hc with rfl | rfl | rfl <;> rfl
        · simp <;> omega
        · intro c hc
          simp only [List.mem_cons, List.not_mem_nil, or_false] at hc
          rcases hc with rfl | rfl | rfl <;> refine ⟨?_, ?_⟩ <;> dsimp only <;> omega
      · -- tag 12: name and type
        refine cpStep _ _ _ _ _ _ _ ?_ ?_ ?_ ?_ ?_ ?_ ?_ (ih rem' (by omega) _ _ _ _)
        · omega
        · omega
        · simp [chainB] <;> omega
        · intro c hc
          simp only [List.mem_cons, List.not_mem_nil, or_false] at hc
          rcases hc with rfl | rfl | rfl <;> dsimp only <;> omega
        · intro c hc
          simp only [List.mem_cons, List.not_mem_nil, or_false] at hc
          rcases hc with rfl | rfl | rfl <;> rfl
        · simp <;> omega
        · intro c hc
          simp only [List.mem_cons, List.not_mem_nil, or_false] at hc
          rcases hc with rfl | rfl | rfl <;> refine ⟨?_, ?_⟩ <;> dsimp only <;> omega
      · -- tag 15: method handle
        refine cpStep _ _ _ _ _ _ _ ?_ ?_ ?_ ?_ ?_ ?_ ?_ (ih rem' (by omega) _ _ _ _)
        · omega
        · omega
        · simp [chainB] <;> omega
        · intro c hc
          simp only [List.mem_cons, List.not_mem_nil, or_false] at hc
          rcases hc with rfl | rfl | rfl <;> dsimp only <;> omega
        · intro c hc
          simp only [List.mem_cons, List.not_mem_nil, or_false] at hc
          rcases hc with rfl | rfl | rfl <;> rfl
        · simp <;> omega
        · intro c hc
          simp only [List.mem_cons, List.not_mem_nil, or_false] at hc
          rcases hc with rfl | rfl | rfl <;> refine ⟨?_, ?_⟩ <;> dsimp only <;> omega
      · -- tag 16: method type
        refine cpStep _ _ _ _ _ _ _ ?_ ?_ ?_ ?_ ?_ ?_ ?_ (ih rem' (by omega) _ _ _ _)
        · omega
        · omega
        · simp [chainB] <;> omega
        · intro c hc
          simp only [List.mem_cons, List.not_mem_nil, or_false] at hc
          rcases hc with rfl | rfl <;> dsimp only <;> omega
        · intro c hc
          simp only [List.mem_cons, List.not_mem_nil, or_false] at hc
          rcases hc with rfl | rfl <;> rfl
        · simp <;> omega
        · intro c hc
          simp only [List.mem_cons, List.not_mem_nil, or_false] at hc
          rcases hc with rfl | rfl <;> refine ⟨?_, ?_⟩ <;> dsimp only <;> omega
      · -- tag 18: invoke dynamic
        refine cpStep _ _ _ _ _ _ _ ?_ ?_ ?_ ?_ ?_ ?_ ?_ (ih rem' (by omega) _ _ _ _)
        · omega
        · omega
        · simp [chainB] <;> omega
        · intro c hc
          simp only [List.mem_cons, List.not_mem_nil, or_false] at hc
          rcases hc with rfl | rfl | rfl <;> dsimp only <;> omega
        · intro c hc
          simp only [List.mem_cons, List.not_mem_nil, or_false] at hc
          rcases hc with rfl | rfl | rfl <;> rfl
        · simp <;> omega
        · intro c hc
          simp only [List.mem_cons, List.not_mem_nil, or_false] at hc
          rcases hc with rfl | rfl | rfl <;> refine ⟨?_, ?_⟩ <;> dsimp only <;> omega
      · -- default: unrecognized tag, loop break
        exact loopInv_nil_le _ _ _ _ (by omega) (by omega)

theorem cpItemsLoop_inv_eq (rem i : Nat) (p : ByteParser) (next g : Nat)
    (cs : List Section) (next' g' : Nat)
    (h : cpItemsLoop rem i p next g = (cs, next', g')) :
    next ≤ next' ∧ g ≤ g' ∧ ChainOk next cs next' ∧ (∀ s ∈ cs, GoodS s) ∧
      IdsOk g g' cs := by
  have hinv := cpItemsLoop_inv rem i p next g
  rw [h] at hinv
  exact hinv

theorem parseConstantPool_out (bytes : List Nat) (index g : Nat) :
    OutOk index g (parseConstantPool bytes index g) := by
  intro next osec g' h
  unfold parseConstantPool at h
  split at h
  · dsimp only at h
    rcases hrec : cpItemsLoop ((((newByteParser bytes index).u2).1 + 65535) % 65536) 0
        ((newByteParser bytes index).u2).2 (index + 2) (g + 1) with ⟨cs0, n0, g0⟩
    rw [hrec] at h
    dsimp only at h
    injection h with h
    injection h with h1 h
    injection h with h2 h3
    subst h1
    subst h2
    subst h3
    obtain ⟨hn, hg, hchain, hgood, hids⟩ := cpItemsLoop_inv_eq _ _ _ _ _ _ _ _ hrec
    have hck : ChainOk index
        ((⟨index, index + 2, "constant pool count: " ++
            toString ((newByteParser bytes index).u2).1, [], g⟩ : Section) :: cs0) n0 :=
      chainOk_cons (le_refl _) (by dsimp only; omega) hchain (by dsimp only; omega)
    refine ⟨by omega, by omega, ?_⟩
    intro s hs
    cases hs
    refine ⟨rfl, rfl, ?_, ?_⟩
    · refine goodS_of_chain _ hck.1 hck.2 ?_
      intro c hc
      rcases List.mem_cons.mp hc with rfl | hc
      · exact goodS_leaf _ rfl
      · exact hgood c hc
    · refine idsOkS_node_post _ g g0 (g0 + 1) ?_ ⟨le_refl _, Nat.lt_succ_self _⟩ (by omega)
      exact idsOk_cons (idsOkS_leaf _ _ _ rfl ⟨le_refl _, Nat.lt_succ_self _⟩) hids
        (Nat.le_succ _) (by dsimp only; omega)
  · exact nomatch h

theorem idsOk_filterMap_cons {lo mid hi : Nat} (o : Option Section)
    (l : List (Option Section))
    (ho : ∀ s, o = some s → IdsOkS lo mid s)
    (hrest : IdsOk mid hi (List.filterMap id l))
    (h1 : lo ≤ mid) (h2 : mid ≤ hi) :
    IdsOk lo hi (List.filterMap id (o :: l)) := by
  cases o with
  | none =>
    simp only [List.filterMap_cons, id] at *
    exact idsOk_mono hrest h1 (le_refl _)
  | some s =>
    simp only [List.filterMap_cons, id] at *
    exact idsOk_cons (ho s rfl) hrest h1 h2

theorem parseClass_inv (bytes : List Nat) (res : List Section)
    (h : parseClass bytes = some res) :
    (∀ s ∈ res, GoodS s) ∧ ∃ G, IdsOk 0 G res := by
  unfold parseClass at h
  simp only [Option.bind_eq_bind', Option.bind_eq_some'] at h
  obtain ⟨⟨i1, s1, g1⟩, h1, ⟨i2, s2, g2⟩, h2, ⟨i3, s3, g3⟩, h3, ⟨i4, s4, g4⟩, h4,
    ⟨i5, s5, g5⟩, h5, ⟨i6, s6, g6⟩, h6, ⟨i7, s7, g7⟩, h7, hres⟩ := h
  injection hres with hres
  subst hres
  obtain ⟨hn1, hg1, hs1⟩ := parseMagicNumber_out bytes 0 0 _ _ _ h1
  obtain ⟨hn2, hg2, hs2⟩ := parseVersion_out bytes i1 g1 _ _ _ h2
  obtain ⟨hn3, hg3, hs3⟩ := parseConstantPool_out bytes i2 g2 _ _ _ h3
  obtain ⟨hn4, hg4, hs4⟩ := parseAccessFlags_out bytes i3 g3 _ _ _ h4
  obtain ⟨hn5, hg5, hs5⟩ := parseThisClass_out bytes i4 g4 _ _ _ h5
  obtain ⟨hn6, hg6, hs6⟩ := parseSuperClass_out bytes i5 g5 _ _ _ h6
  obtain ⟨hn7, hg7, hs7⟩ := parseInterfaces_out bytes i6 g6 _ _ _ h7
  constructor
  · intro s hs
    simp only [List.mem_filterMap, List.mem_cons, List.not_mem_nil, or_false, id] at hs
    obtain ⟨o, ho, hso⟩ := hs
    rcases ho with rfl | rfl | rfl | rfl | rfl | rfl | rfl
    · exact (hs1 s hso).2.2.1
    · exact (hs2 s hso).2.2.1
    · exact (hs3 s hso).2.2.1
    · exact (hs4 s hso).2.2.1
    · exact (hs5 s hso).2.2.1
    · exact (hs6 s hso).2.2.1
    · exact (hs7 s hso).2.2.1
  · refine ⟨g7, ?_⟩
    refine @idsOk_filterMap_cons 0 g1 g7 s1 _ (fun s hso => (hs1 s hso).2.2.2)
      ?_ (by omega) (by omega)
    refine @idsOk_filterMap_cons g1 g2 g7 s2 _ (fun s hso => (hs2 s hso).2.2.2)
      ?_ (by omega) (by omega)
    refine @idsOk_filterMap_cons g2 g3 g7 s3 _ (fun s hso => (hs3 s hso).2.2.2)
      ?_ (by omega) (by omega)
    refine @idsOk_filterMap_cons g3 g4 g7 s4 _ (fun s hso => (hs4 s hso).2.2.2)
      ?_ (by omega) (by omega)
    refine @idsOk_filterMap_cons g4 g5 g7 s5 _ (fun s hso => (hs5 s hso).2.2.2)
      ?_ (by omega) (by omega)
    refine @idsOk_filterMap_cons g5 g6 g7 s6 _ (fun s hso => (hs6 s hso).2.2.2)
      ?_ (by omega) (by omega)
    refine @idsOk_filterMap_cons g6 g7 g7 s7 _ (fun s hso => (hs7 s hso).2.2.2)
      ?_ (by omega) (by omega)
    simp only [List.filterMap_nil]
    exact idsOk_nil _ _

theorem headI_mem_of_ne_nil (l : List Section) (h : l ≠ []) : l.headI ∈ l := by
  cases l with
  | nil => exact absurd rfl h
  | cons a rest => exact List.mem_cons_self _ _

/-- C4 amended: for every section produced by a decode, each child's byte
range is contained in its parent's range; sibling ranges are pairwise
non-overlapping and ordered by start offset for every section EXCEPT the
access-flags section, whose ten flag children deliberately share the bytes
of the two-byte field (and are emitted low-byte flags first, so they are
neither disjoint nor in start order).  `goodSectionF` checks exactly this,
at every recursion depth (fuel). -/
theorem parseClass_sections_good (bytes : List Nat) (res : List Section)
    (h : parseClass bytes = some res) :
    ∀ s ∈ res, ∀ fuel, goodSectionF fuel s = true :=
  fun s hs => (parseClass_inv bytes res h).1 s hs

/-- C4 witness: the amended property evaluated on the decode of the
concrete buffer `good16` (its first section, at fuel 4, which covers the
whole tree depth). -/
theorem parseClass_sections_good_witness : goodSectionF 4 good16forest.headI = true :=
  parseClass_sections_good good16 good16forest rfl good16forest.headI
    (headI_mem_of_ne_nil _ (fun he => absurd (congrArg List.length he) (by decide))) 4

/-- C4 counterexample: the claim as stated (children contained, pairwise
non-overlapping AND ordered by start, for every section) is false on the
decode of `good16`: the access-flags section's children overlap and are
out of order, so the forest-wide check `claimC4F` fails. -/
theorem parseClass_claimC4_counterexample :
    (parseClass good16).isSome = true ∧ good16forest.all (claimC4F 4) = false := by
  constructor <;> rfl

/-- C5 amended: for a single decode invocation the section ids, collected
over the whole forest at any depth, are pairwise distinct (they are drawn
from disjoint counter intervals, starting at 0) — but they are NOT
strictly increasing in depth-first visitation order: `parseVersion` and
`parseAccessFlags` assign their children's ids before the parent's (see
the counterexample). -/
theorem parseClass_ids_nodup (bytes : List Nat) (res : List Section)
    (h : parseClass bytes = some res) : ∀ fuel, (idsFlatF fuel res).Nodup := by
  obtain ⟨G, hids⟩ := (parseClass_inv bytes res h).2
  exact fun fuel => (hids fuel).1

/-- C5 witness: distinctness of the ids of the decode of `good16`. -/
theorem parseClass_ids_nodup_witness : (idsFlatF 4 good16forest).Nodup :=
  parseClass_ids_nodup good16 good16forest rfl 4

/-- C5 counterexample: on the decode of `good16` the depth-first id
sequence is 0, 3, 1, 2, 5, 4, 16, ... — the version section (id 3) and
the access-flags section (id 16) carry ids larger than their children's,
so the ids are not strictly increasing in depth-first visitation order. -/
theorem parseClass_claimC5_counterexample :
    (parseClass good16).isSome = true ∧ strictIncB (idsFlatF 4 good16forest) = false := by
  constructor <;> rfl
